import Mathlib

/-!
Verification development for the GMAT quiz batch-extraction scripts.

The repository's core is a resumable batch-processing loop: enumerate HTML
files, skip the ones recorded in a checkpoint, call a local language-model
HTTP service per item with bounded retry, parse a JSON object out of the
free-text response (falling back to marker-based manual extraction), persist
per-item output files, and append identifiers to the checkpoint.

This file shallowly embeds the two driver scripts
(`processCROGQuestionsWithMistralSequential.py` as namespace `CRSeq`,
`processExamPacksWithMistral.py` as namespace `ExamPacks`) plus the
result-validity check of `combineResults.py` (namespace `Combine`).

Modelling conventions:
- Python strings are `List Char` (`Str`); `str.find`, `str.rfind`, slicing,
  `strip`, `replace`, `split` and `lower` are transcribed as executable
  functions below.
- Python JSON values are the inductive `Json`; `json.loads` (standard
  library, not part of the repository) is modelled from the spec by the
  recursive-descent parser `jsonParse` (integer numerals only, `\u` escapes
  not decoded; no claim depends on either).
- The filesystem is explicit state: output files are an append-log of
  (name, content) writes (a file exists iff its name occurs), the checkpoint
  file is a sum (absent / unparsable / parsed list), the error log is a list
  of (timestamp, file, message) lines.  Timestamps come from a logical
  clock incremented at each log write.
- External effects (HTML loading via BeautifulSoup, the HTTP service,
  write failures) are an environment record; a service call either raises
  `requests.exceptions.RequestException` or returns a response text.
- Writes are atomic; "the process is killed at any point" means the disk
  equals one of the recorded intermediate snapshots.
-/

namespace GmatQuiz

/-- Python strings, modelled as lists of characters. -/
abbrev Str := List Char

/-- The `{` character (written numerically so that brace characters never
occur literally in this file's literals). -/
def lbrace : Char := Char.ofNat 123

/-- The `}` character. -/
def rbrace : Char := Char.ofNat 125

/-- The `"` character. -/
def dquote : Char := Char.ofNat 34

/-- The `\` character. -/
def bslash : Char := Char.ofNat 92

/-- The newline character. -/
def nlc : Char := Char.ofNat 10

/-- Helper for `str.find`: first index `≥ i` (counting from the head of `t`,
offset `i`) at which `sub` occurs in `t`. -/
def findFromAux (sub : Str) : Str → Nat → Option Nat
  | [], i => if sub.isPrefixOf ([] : Str) then some i else none
  | c :: t, i => if sub.isPrefixOf (c :: t) then some i else findFromAux sub t (i + 1)

/-- Python `t.find(sub)`: first occurrence index, or `-1`. -/
def pyFind (t sub : Str) : Int :=
  match findFromAux sub t 0 with
  | some n => (n : Int)
  | none => -1

/-- Python `t.find(sub, start)` for `start ≥ 0`: first occurrence index at
or after `start`, or `-1`. -/
def pyFindFrom (t sub : Str) (start : Nat) : Int :=
  match findFromAux sub (t.drop start) 0 with
  | some n => ((n + start : Nat) : Int)
  | none => -1

/-- Helper for `str.rfind`: the last matching index, scanning left to right
and remembering the best match so far. -/
def rfindAux (sub : Str) : Str → Nat → Option Nat → Option Nat
  | [], i, best => if sub.isPrefixOf ([] : Str) then some i else best
  | c :: t, i, best =>
      rfindAux sub t (i + 1) (if sub.isPrefixOf (c :: t) then some i else best)

/-- Python `t.rfind(sub)`: last occurrence index, or `-1`. -/
def pyRfind (t sub : Str) : Int :=
  match rfindAux sub t 0 none with
  | some n => (n : Int)
  | none => -1

/-- Python `t[a:b]` for integer indices that are `≥ 0` in every use in the
scripts (negative indices never arise there). -/
def pySlice (t : Str) (a b : Int) : Str :=
  (t.drop a.toNat).take (b.toNat - a.toNat)

/-- Python substring test `sub in t`. -/
def containsSub (t sub : Str) : Bool :=
  (findFromAux sub t 0).isSome

/-- Whitespace in the sense of Python `str.strip()`. -/
def isWs (c : Char) : Bool :=
  c == ' ' || c == Char.ofNat 9 || c == Char.ofNat 10 || c == Char.ofNat 13 ||
  c == Char.ofNat 11 || c == Char.ofNat 12

/-- Drop matching characters from the end of a string. -/
def dropEndWhile (p : Char → Bool) (t : Str) : Str :=
  (t.reverse.dropWhile p).reverse

/-- Python `t.strip()`. -/
def pyStrip (t : Str) : Str :=
  dropEndWhile isWs (t.dropWhile isWs)

/-- Python `t.strip(c)` for a single strip character. -/
def pyStripCh (c : Char) (t : Str) : Str :=
  dropEndWhile (· == c) (t.dropWhile (· == c))

/-- The `.strip().strip('"').strip()` combination the manual extractor
applies to every captured value. -/
def cleanVal (t : Str) : Str :=
  pyStrip (pyStripCh dquote (pyStrip t))

/-- Fuel-driven worker for Python `t.replace(old, new)`; fuel `t.length`
suffices because each step consumes at least one character. -/
def pyReplaceAux : Nat → Str → Str → Str → Str
  | 0, t, _, _ => t
  | _ + 1, [], _, _ => []
  | fuel + 1, c :: t, old, new =>
      if old ≠ [] && old.isPrefixOf (c :: t) then
        new ++ pyReplaceAux fuel ((c :: t).drop old.length) old new
      else
        c :: pyReplaceAux fuel t old new

/-- Python `t.replace(old, new)` (for nonempty `old`, the only case used). -/
def pyReplace (t old new : Str) : Str :=
  pyReplaceAux t.length t old new

/-- Python `t.lower()`. -/
def pyLower (t : Str) : Str :=
  t.map Char.toLower

/-- Python `t.split(c)` on a single-character separator (keeps empty
pieces, as Python does). -/
def splitCh (c : Char) : Str → List Str
  | [] => [[]]
  | x :: t =>
      match splitCh c t with
      | [] => [[x]]
      | h :: r => if x == c then [] :: h :: r else (x :: h) :: r

/-- Python `t.split(sep, 1)`: `some (before, after)` when `sep` occurs,
otherwise `none` (Python would return the one-element list `[t]`). -/
def splitOnce (t sep : Str) : Option (Str × Str) :=
  match findFromAux sep t 0 with
  | some n => some (t.take n, t.drop (n + sep.length))
  | none => none

/-- Python `'\n'.join(ls)`. -/
def joinNl (ls : List Str) : Str :=
  List.intercalate [nlc] ls

/-- Lexicographic (code-point) order on strings, the order Python's
`sorted` / `list.sort` uses for `str`. -/
def strLe : Str → Str → Bool
  | [], _ => true
  | _ :: _, [] => false
  | a :: as, b :: bs => if a < b then true else if b < a then false else strLe as bs

/-- `strLe` as a proposition, for `List.insertionSort`. -/
def StrLeP (a b : Str) : Prop := strLe a b = true

instance : DecidableRel StrLeP := fun a b => by
  unfold StrLeP; infer_instance

/-- Python `sorted(l)` / `l.sort()` on strings. -/
def sortStr (l : List Str) : List Str :=
  List.insertionSort StrLeP l

/-- Python `l[a:b]` on lists, for indices `≥ 0`. -/
def pySliceList {α : Type} (l : List α) (a b : Nat) : List α :=
  (l.drop a).take (b - a)

/-! ## JSON values (the shape `json.loads` / `json.dump` traffic in) -/

/-- Python JSON values. Numbers are modelled as integers (the scripts never
branch on numeric values). -/
inductive Json where
  | null
  | bool (b : Bool)
  | num (n : Int)
  | str (cs : Str)
  | arr (xs : List Json)
  | obj (kvs : List (Str × Json))

/-- Key lookup in a JSON-object pair list (Python dict lookup; keys are
unique in every object the model builds). -/
def lookupL : List (Str × Json) → Str → Option Json
  | [], _ => none
  | p :: t, k => if p.1 == k then some p.2 else lookupL t k

/-- Python `k in d` for a dict's pair list. -/
def hasKeyL (kvs : List (Str × Json)) (k : Str) : Bool :=
  (lookupL kvs k).isSome

/-- Python `d[k] = v`: overwrite in place if the key exists (keeping its
position, as Python dicts do), otherwise append. -/
def objSet (kvs : List (Str × Json)) (k : Str) (v : Json) : List (Str × Json) :=
  if hasKeyL kvs k then
    kvs.map (fun p => if p.1 == k then (p.1, v) else p)
  else
    kvs ++ [(k, v)]

/-- Python `d.pop(k)`'s effect on the dict: remove the key. -/
def objRemove (kvs : List (Str × Json)) (k : Str) : List (Str × Json) :=
  kvs.filter (fun p => !(p.1 == k))

/-- `d.get(k)` on a JSON value known to be a dict; `none` when the value is
not a dict or lacks the key. -/
def objGet (j : Json) (k : Str) : Option Json :=
  match j with
  | Json.obj kvs => lookupL kvs k
  | _ => none

/-- Python `k in j` for a dict value. -/
def hasKey (j : Json) (k : Str) : Bool :=
  (objGet j k).isSome

/-- Python dict-literal semantics for a parsed member list: later duplicate
keys overwrite earlier ones. -/
def dedupPairs (pairs : List (Str × Json)) : List (Str × Json) :=
  pairs.foldl (fun acc p => objSet acc p.1 p.2) []

/-! ## `json.loads`, modelled from the spec
(the Python standard library is not part of the repository; "Structured
parse: recognizing a JSON-shaped object inside the external service's
free-text response"). -/

/-- Skip JSON whitespace. -/
def skipWs (t : Str) : Str :=
  t.dropWhile isWs

/-- Decode a JSON string escape character (after a backslash).  `\u` hex
decoding is not modelled; unknown escapes are kept verbatim. -/
def unesc (c : Char) : Char :=
  if c == 'n' then nlc
  else if c == 't' then Char.ofNat 9
  else if c == 'r' then Char.ofNat 13
  else if c == 'b' then Char.ofNat 8
  else if c == 'f' then Char.ofNat 12
  else c

/-- Parse the body of a JSON string (the opening quote already consumed),
returning the contents and the input after the closing quote. -/
def pStr : Str → Option (Str × Str)
  | [] => none
  | c :: t =>
      if c == dquote then some ([], t)
      else if c == bslash then
        match t with
        | [] => none
        | e :: t2 => (pStr t2).map (fun p => (unesc e :: p.1, p.2))
      else (pStr t).map (fun p => (c :: p.1, p.2))

/-- Parse a JSON integer numeral. -/
def pNum (t : Str) : Option (Json × Str) :=
  let (neg, t1) : Bool × Str :=
    match t with
    | c :: r => if c == '-' then (true, r) else (false, t)
    | [] => (false, [])
  let ds := t1.takeWhile Char.isDigit
  if ds.isEmpty then none
  else
    let n : Int := ds.foldl (fun a c => a * 10 + ((c.toNat : Int) - 48)) 0
    some (Json.num (if neg then -n else n), t1.drop ds.length)

mutual

/-- Parse one JSON value; `fuel` bounds recursion depth. -/
def pVal : Nat → Str → Option (Json × Str)
  | 0, _ => none
  | fuel + 1, t0 =>
      let t := skipWs t0
      match t with
      | [] => none
      | c :: r =>
          if c == dquote then (pStr r).map (fun p => (Json.str p.1, p.2))
          else if c == lbrace then pObjM fuel r
          else if c == '[' then pArrE fuel r
          else if c == 't' then
            if ("rue".data).isPrefixOf r then some (Json.bool true, r.drop 3) else none
          else if c == 'f' then
            if ("alse".data).isPrefixOf r then some (Json.bool false, r.drop 4) else none
          else if c == 'n' then
            if ("ull".data).isPrefixOf r then some (Json.null, r.drop 3) else none
          else pNum t
termination_by structural fuel => fuel

/-- Parse an object after the opening brace. -/
def pObjM : Nat → Str → Option (Json × Str)
  | 0, _ => none
  | fuel + 1, t =>
      match skipWs t with
      | [] => none
      | c :: r =>
          if c == rbrace then some (Json.obj [], r)
          else pMembers fuel (c :: r) []
termination_by structural fuel _ => fuel

/-- Parse the members of an object (at least one remaining). -/
def pMembers : Nat → Str → List (Str × Json) → Option (Json × Str)
  | 0, _, _ => none
  | fuel + 1, t, acc =>
      match skipWs t with
      | [] => none
      | c :: r =>
          if c == dquote then
            match pStr r with
            | none => none
            | some (k, r1) =>
                match skipWs r1 with
                | [] => none
                | c2 :: r2 =>
                    if c2 == ':' then
                      match pVal fuel r2 with
                      | none => none
                      | some (v, r3) =>
                          let acc' := objSet acc k v
                          match skipWs r3 with
                          | [] => none
                          | c3 :: r4 =>
                              if c3 == ',' then pMembers fuel r4 acc'
                              else if c3 == rbrace then some (Json.obj acc', r4)
                              else none
                    else none
          else none
termination_by structural fuel _ _ => fuel

/-- Parse the elements of an array after the opening bracket. -/
def pArrE : Nat → Str → Option (Json × Str)
  | 0, _ => none
  | fuel + 1, t =>
      match skipWs t with
      | [] => none
      | c :: r =>
          if c == ']' then some (Json.arr [], r)
          else pElems fuel (c :: r) []
termination_by structural fuel _ => fuel

/-- Parse the elements of an array (at least one remaining). -/
def pElems : Nat → Str → List Json → Option (Json × Str)
  | 0, _, _ => none
  | fuel + 1, t, acc =>
      match pVal fuel t with
      | none => none
      | some (v, r) =>
          match skipWs r with
          | [] => none
          | c :: r2 =>
              if c == ',' then pElems fuel r2 (acc ++ [v])
              else if c == ']' then some (Json.arr (acc ++ [v]), r2)
              else none
termination_by structural fuel _ _ => fuel

end

/-- Model of `json.loads`: parse one value and require only whitespace to
remain (Python raises on trailing data, which the scripts catch as a
decode error — modelled as `none`). -/
def jsonParse (t : Str) : Option Json :=
  match pVal (2 * t.length + 2) t with
  | some (v, rest) => if skipWs rest = [] then some v else none
  | none => none

/-! ## Shared driver-level data model -/

/-- The soup-derived per-item data `load_html_file` returns (the fields the
rest of the pipeline consumes).  `question_number` is derived from the
filename; the other fields come from HTML parsing, which is external and
supplied by the environment. -/
structure QData where
  question_number : Str
  source_url : Str
  metadata : List (Str × Str)
  answer_stats : Json
  session_stats : Json

/-- Embed a metadata string-dict into JSON. -/
def metaJson (m : List (Str × Str)) : List (Str × Json) :=
  m.map (fun p => (p.1, Json.str p.2))

/-- One attempt of the external HTTP service: either
`requests.exceptions.RequestException` with message `msg`, or a successful
response carrying the free-text `text`. -/
inductive SvcAttempt where
  | exc (msg : Str)
  | resp (text : Str)
deriving DecidableEq

/-- The checkpoint file's on-disk state, at the granularity the drivers
distinguish: absent, present-but-unparsable, or a parsed
`{"processed_files": ids}` record (represented by `ids`). -/
inductive CpFile where
  | absent
  | corrupt
  | good (ids : List Str)
deriving DecidableEq

/-- `load_checkpoint().get("processed_files", [])` /
`read_checkpoint().get(...)`: the identifiers recoverable from the
checkpoint file (empty for absent or unparsable files). -/
def cpRead : CpFile → List Str
  | .good l => l
  | _ => []

/-- One appended error-log line: the `datetime.now()` timestamp (logical
clock), the item's file name, and the message. -/
structure ErrLine where
  ts : Nat
  file : Str
  msg : Str
deriving DecidableEq

/-- Per-item outcome classification, as in the scripts' `status` strings
(`"processed"` / `"error"` / `"skipped"`). -/
inductive Status where
  | processed
  | errored
  | skipped
deriving DecidableEq

/-- A `{"error": msg}` result dict. -/
def errObj (msg : Str) : Json :=
  Json.obj [("error".data, Json.str msg)]

/-- `result['error']` as a string (every error value the scripts store is
a string). -/
def errMsg (j : Json) : Str :=
  match objGet j ("error".data) with
  | some (Json.str m) => m
  | _ => []

/-- Lines 204-209 of both drivers' `generate_response`: the substring from
the first `{` to the last `}` of the response text, when such a pair exists
in the right order. -/
def extract_json_str (text : Str) : Option Str :=
  let start := pyFind text [lbrace]
  let endI := pyRfind text [rbrace] + 1
  if start ≥ 0 ∧ endI > start then some (pySlice text start endI) else none

/-! ## The sequential CR driver
(`processCROGQuestionsWithMistralSequential.py`) -/

namespace CRSeq

/-- `MAX_RETRIES = 3`. -/
def MAX_RETRIES : Nat := 3

/-- The environment of one run: the glob result, the external HTML/service
behaviour per file, and whether each file-system write succeeds (a `false`
means the corresponding Python call raises). -/
structure Env where
  files : List Str
  loadOk : Str → Bool
  meta : Str → List (Str × Str)
  astats : Str → Json
  sstats : Str → Json
  srcUrl : Str → Str
  svc : Str → Nat → SvcAttempt
  saveResultOk : Str → Bool
  errorLogOk : Str → Bool
  saveCpOk : Str → Bool

/-- `load_html_file`'s result for a file (when its `open`/parse does not
raise): the question number is computed from the file name, the soup-derived
fields come from the environment. -/
def mkQData (env : Env) (fname : Str) : QData :=
  { question_number := pyReplace (pyReplace fname ("cr_".data) []) (".html".data) []
    source_url := env.srcUrl fname
    metadata := env.meta fname
    answer_stats := env.astats fname
    session_stats := env.sstats fname }

/-- The disk (and call-trace) state of a sequential run.  `outputs` is the
append-log of output-file writes (a file exists iff its name occurs);
`svcCalls` records each `requests.post` with its retry index. -/
structure FS where
  outputs : List (Str × Json)
  cpFile : CpFile
  errLog : List ErrLine
  svcCalls : List (Str × Nat)
  clock : Nat

/-- Append a timestamped line to the error log. -/
def appendLog (fs : FS) (f msg : Str) : FS :=
  { fs with errLog := fs.errLog ++ [⟨fs.clock, f, msg⟩], clock := fs.clock + 1 }

/-- `save_result`: write one output file. -/
def writeOut (fs : FS) (name : Str) (v : Json) : FS :=
  { fs with outputs := fs.outputs ++ [(name, v)] }

/-- The fixed required-key list of `generate_response` (lines 231). -/
def requiredKeys : List Str :=
  ["argument".data, "question_stem".data, "options".data, "correct_answer".data,
   "explanation".data, "question_type".data]

/-- The repeated per-field block of `manually_extract_components`
(find the marker, then `find(':', start) + 1`, then `find('",', vs)`, then
slice and `.strip().strip('"').strip()`); `none` when the marker is absent
or no closing `",` is found after the value start. -/
def scanValue (text marker : Str) : Option Str :=
  let st := pyFind text marker
  if st ≥ 0 then
    let vs : Int := pyFindFrom text (":".data) st.toNat + 1
    let ve : Int := pyFindFrom text ("\",".data) vs.toNat
    if ve ≥ 0 then some (cleanVal (pySlice text vs ve)) else none
  else none

/-- `manually_extract_components(text, question_data)` (lines 265-344):
build the fixed fallback skeleton, then fill each field whose literal
marker is found.  (The source mutates `result["options"]` in place; here
the options sub-dict is folded and stored once, which yields the same
dict.) -/
def manually_extract_components (text : Str) (qd : QData) : Json :=
  let base : List (Str × Json) :=
    [("argument".data, Json.str []),
     ("question_stem".data, Json.str []),
     ("options".data, Json.obj
        [("A".data, Json.str []), ("B".data, Json.str []), ("C".data, Json.str []),
         ("D".data, Json.str []), ("E".data, Json.str [])]),
     ("correct_answer".data, Json.str []),
     ("explanation".data, Json.str []),
     ("question_type".data, Json.str ("Critical Reasoning".data)),
     ("metadata".data, Json.obj (metaJson qd.metadata)),
     ("answer_stats".data, qd.answer_stats),
     ("session_stats".data, qd.session_stats),
     ("extraction_note".data,
      Json.str ("This response was manually extracted from an improperly formatted model output.".data))]
  let r := match scanValue text ("\"argument\"".data) with
    | some v => objSet base ("argument".data) (Json.str v)
    | none => base
  let r := match scanValue text ("\"question_stem\"".data) with
    | some v => objSet r ("question_stem".data) (Json.str v)
    | none => r
  let r :=
    let oStart := pyFind text ("\"options\"".data)
    if oStart ≥ 0 then
      let sec := pySlice text oStart (pyFindFrom text [rbrace] oStart.toNat + 1)
      let curOpts := match lookupL r ("options".data) with
        | some (Json.obj o) => o
        | _ => []
      let opts := (["A", "B", "C", "D", "E"].map String.data).foldl (fun acc o =>
        match scanValue sec (dquote :: (o ++ [dquote])) with
        | some v => objSet acc o (Json.str v)
        | none => acc) curOpts
      objSet r ("options".data) (Json.obj opts)
    else r
  let r := match scanValue text ("\"correct_answer\"".data) with
    | some v => objSet r ("correct_answer".data) (Json.str v)
    | none => r
  let r := match scanValue text ("\"explanation\"".data) with
    | some v => objSet r ("explanation".data) (Json.str v)
    | none => r
  let r := match scanValue text ("\"cr_specific_type\"".data) with
    | some v =>
        let m := match lookupL r ("metadata".data) with
          | some (Json.obj o) => o
          | _ => []
        objSet r ("metadata".data) (Json.obj (objSet m ("cr_specific_type".data) (Json.str v)))
    | none => r
  Json.obj r

/-- The response-processing of `generate_response` (lines 203-244): slice
from the first `{` to the last `}`, parse, post-process the parsed dict, and
fall back to manual extraction when delimiters are missing, parsing fails,
or required keys are absent. -/
def handle_response (text : Str) (qd : QData) : Json :=
  match extract_json_str text with
  | some json_str =>
    match jsonParse json_str with
    | some (Json.obj kvs) =>
        let p1 := if hasKeyL kvs ("answer_stats".data) then kvs
                  else kvs ++ [("answer_stats".data, qd.answer_stats)]
        let p2 := if hasKeyL p1 ("session_stats".data) then p1
                  else p1 ++ [("session_stats".data, qd.session_stats)]
        let metaBase := metaJson qd.metadata
        let mp : List (Str × Json) × List (Str × Json) :=
          match lookupL p2 ("cr_specific_type".data) with
          | some v => (objSet metaBase ("cr_specific_type".data) v,
                       objRemove p2 ("cr_specific_type".data))
          | none => (metaBase, p2)
        let p4 := objSet mp.2 ("metadata".data) (Json.obj mp.1)
        let p5 := objSet p4 ("question_type".data) (Json.str ("Critical Reasoning".data))
        if requiredKeys.all (fun k => hasKeyL p5 k) then Json.obj p5
        else manually_extract_components text qd
    | some _ => manually_extract_components text qd
    | none => manually_extract_components text qd
  | none => manually_extract_components text qd

/-- `generate_response(question_data, retry_count)` (lines 137-263): call
the service; on `RequestException` retry while `retry_count < MAX_RETRIES`
(so one initial attempt plus up to three retries), else return the
`{"error": ...}` dict; on a response, process its text.  The state records
each service call. -/
def generate_response_go (env : Env) (fname : Str) (qd : QData) :
    Nat → Nat → FS → Json × FS
  | fuel, retry_count, fs =>
      let fs1 := { fs with svcCalls := fs.svcCalls ++ [(fname, retry_count)] }
      match env.svc fname retry_count with
      | .resp text => (handle_response text qd, fs1)
      | .exc m =>
          if retry_count < MAX_RETRIES then
            match fuel with
            | fuel' + 1 => generate_response_go env fname qd fuel' (retry_count + 1) fs1
            | 0 => (errObj ("API request failed after 3 retries: ".data ++ m), fs1)
          else
            (errObj ("API request failed after 3 retries: ".data ++ m), fs1)
termination_by structural fuel _ _ => fuel

/-- `generate_response`'s recursion increments `retry_count` while the
guard `retry_count < MAX_RETRIES` holds, so `MAX_RETRIES - retry_count`
bounds the remaining recursion depth; `generate_response_go`'s fuel is set
to that bound (its fuel-exhaustion branch is unreachable, since the guard
is false whenever the fuel is zero). -/
def generate_response (env : Env) (fname : Str) (qd : QData) (retry_count : Nat)
    (fs : FS) : Json × FS :=
  generate_response_go env fname qd (MAX_RETRIES - retry_count) retry_count fs

/-- Per-item outcome: `done` with the status, final disk state and the list
of intermediate disk snapshots (one per write), or `raised` when an
exception escapes `process_file_sequentially` (which happens only when the
error-log append in the `except` handler itself raises). -/
inductive ItemOut where
  | done (st : Status) (fs : FS) (tr : List FS)
  | raised (fs : FS) (tr : List FS)

/-- The error paths of `process_file_sequentially`: append a timestamped
line to the error log and report `"error"`; if the append raises, the
exception escapes (the surrounding `except` block re-attempts the same
append, which fails the same way). -/
def logErr (env : Env) (fname msg : Str) (fs : FS) (tr : List FS) : ItemOut :=
  if env.errorLogOk fname then
    let fs' := appendLog fs fname msg
    .done .errored fs' (tr ++ [fs'])
  else .raised fs tr

/-- The output-file name for an item (line 408). -/
def outName (fname : Str) : Str :=
  "processed_".data ++ pyReplace fname (".html".data) (".json".data)

/-- `process_file_sequentially(html_file, processed_files)` (lines
370-433): skip if already checkpointed; otherwise load, generate, and
either log an error or persist the output file. -/
def process_file_sequentially (env : Env) (fname : Str) (processed_files : List Str)
    (fs : FS) : ItemOut :=
  if fname ∈ processed_files then
    .done .skipped fs []
  else if env.loadOk fname then
    let r := generate_response env fname (mkQData env fname) 0 fs
    if hasKey r.1 ("error".data) then
      logErr env fname (errMsg r.1) r.2 []
    else if env.saveResultOk fname then
      let fs2 := writeOut r.2 (outName fname) r.1
      .done .processed fs2 [fs2]
    else
      logErr env fname ("save_result failed".data) r.2 []
  else
    logErr env fname ("load_html_file failed".data) fs []

/-- A whole run's outcome: per-item statuses in order, the final in-memory
`processed_files` list, the final disk state and all intermediate
snapshots; `aborted` when a per-item exception escaped the loop (the loop
body has no try/except of its own). -/
inductive RunOut where
  | finished (items : List (Str × Status)) (mem : List Str) (fs : FS) (tr : List FS)
  | aborted (items : List (Str × Status)) (fs : FS) (tr : List FS)

/-- Whether the run ran to completion. -/
def RunOut.isFinished : RunOut → Bool
  | .finished .. => true
  | .aborted .. => false

/-- The per-item statuses recorded before the run ended. -/
def RunOut.items : RunOut → List (Str × Status)
  | .finished items _ _ _ => items
  | .aborted items _ _ => items

/-- The disk state when the run ended. -/
def RunOut.endFs : RunOut → FS
  | .finished _ _ fs _ => fs
  | .aborted _ fs _ => fs

/-- All intermediate disk snapshots of the run. -/
def RunOut.trace : RunOut → List FS
  | .finished _ _ _ tr => tr
  | .aborted _ _ tr => tr

/-- The per-file loop of `process_all_files_sequentially` (lines 467-489):
process each file; after a `"processed"` result append the name to the
in-memory list and `save_checkpoint` it (whose own try/except swallows a
write failure). -/
def runItems (env : Env) : List Str → List Str → FS → RunOut
  | [], mem, fs => .finished [] mem fs []
  | f :: rest, mem, fs =>
      match process_file_sequentially env f mem fs with
      | .raised fs1 tr1 => .aborted [] fs1 tr1
      | .done st fs1 tr1 =>
          let nxt : List Str × FS × List FS :=
            if st = .processed then
              let m := mem ++ [f]
              if env.saveCpOk f then
                let fs' := { fs1 with cpFile := .good m }
                (m, fs', [fs'])
              else (m, fs1, [])
            else (mem, fs1, [])
          match runItems env rest nxt.1 nxt.2.1 with
          | .finished items memF fsF trF =>
              .finished ((f, st) :: items) memF fsF (tr1 ++ nxt.2.2 ++ trF)
          | .aborted items fsF trF =>
              .aborted ((f, st) :: items) fsF (tr1 ++ nxt.2.2 ++ trF)

/-- The selection filters of `process_all_files_sequentially` (lines
446-458): an if/elif chain over start index, end index, limit and test
mode. -/
def applyFilters (files : List Str) (startIdx endIdx limit : Option Nat)
    (testMode : Bool) : List Str :=
  match startIdx, endIdx with
  | some a, some b => pySliceList files a (b + 1)
  | some a, none => files.drop a
  | none, _ =>
      match limit with
      | some l => files.take l
      | none => if testMode then files.take 3 else files

/-- `process_all_files_sequentially(start_idx, end_idx, limit, test_mode)`
(lines 435-506): sort the glob result, load the checkpoint, filter, and
run the per-file loop. -/
def process_all_files_sequentially (env : Env) (startIdx endIdx limit : Option Nat)
    (testMode : Bool) (fs0 : FS) : RunOut :=
  let html_files := sortStr env.files
  let processed_files := cpRead fs0.cpFile
  let files := applyFilters html_files startIdx endIdx limit testMode
  runItems env files processed_files fs0

end CRSeq

/-! ## JSON equality (Python `==` on JSON values, used by the exam-pack
aggregate dedup). -/

mutual

/-- Python `==` on JSON values. -/
def jbeq : Json → Json → Bool
  | .null, .null => true
  | .bool a, .bool b => a == b
  | .num a, .num b => a == b
  | .str a, .str b => a == b
  | .arr a, .arr b => jbeqList a b
  | .obj a, .obj b => jbeqPairs a b
  | _, _ => false

/-- Elementwise `==` on JSON lists. -/
def jbeqList : List Json → List Json → Bool
  | [], [] => true
  | a :: as, b :: bs => jbeq a b && jbeqList as bs
  | _, _ => false

/-- Pairwise `==` on JSON object pair lists. -/
def jbeqPairs : List (Str × Json) → List (Str × Json) → Bool
  | [], [] => true
  | a :: as, b :: bs => (a.1 == b.1) && jbeq a.2 b.2 && jbeqPairs as bs
  | _, _ => false

end

/-- Python `==` on `dict.get` results (either side may be `None`). -/
def jbeqO : Option Json → Option Json → Bool
  | none, none => true
  | some a, some b => jbeq a b
  | _, _ => false

/-! ## The exam-pack driver (`processExamPacksWithMistral.py`) -/

namespace ExamPacks

/-- `MAX_RETRIES = 3`. -/
def MAX_RETRIES : Nat := 3

/-- `BATCH_SIZE = 5`. -/
def BATCH_SIZE : Nat := 5

/-- Run environment, as for the sequential driver, plus whether the
aggregate-file write succeeds. -/
structure Env where
  files : List Str
  loadOk : Str → Bool
  meta : Str → List (Str × Str)
  astats : Str → Json
  sstats : Str → Json
  srcUrl : Str → Str
  svc : Str → Nat → SvcAttempt
  saveResultOk : Str → Bool
  errorLogOk : Str → Bool
  saveCpOk : Str → Bool
  aggOk : Bool

/-- `load_html_file`'s result (line 37: the question number comes from the
file name). -/
def mkQData (env : Env) (fname : Str) : QData :=
  { question_number := pyReplace (pyReplace fname ("question_".data) []) (".html".data) []
    source_url := env.srcUrl fname
    metadata := env.meta fname
    answer_stats := env.astats fname
    session_stats := env.sstats fname }

/-- `question_data.get("metadata", {}).get("type", "")`. -/
def metaType (qd : QData) : Str :=
  match qd.metadata.find? (fun p => p.1 == ("type".data)) with
  | some p => p.2
  | none => []

/-- The standardized Data Sufficiency options dict (lines 261-267 and
348-354). -/
def dsOptionsObj : List (Str × Json) :=
  [("A".data, Json.str ("Statement (1) ALONE is sufficient, but statement (2) alone is not sufficient.".data)),
   ("B".data, Json.str ("Statement (2) ALONE is sufficient, but statement (1) alone is not sufficient.".data)),
   ("C".data, Json.str ("BOTH statements TOGETHER are sufficient, but NEITHER statement ALONE is sufficient.".data)),
   ("D".data, Json.str ("EACH statement ALONE is sufficient.".data)),
   ("E".data, Json.str ("Statements (1) and (2) TOGETHER are NOT sufficient.".data))]

/-- The question-extraction loop of `manually_extract_components` (lines
325-335): first line matching the marker with a nonempty next line wins
and breaks; otherwise the part after `:` is remembered and the scan
continues. -/
def epQuestionScan : List Str → Option Str → Option Str
  | [], acc => acc
  | l :: rest, acc =>
      if containsSub (pyLower l) ("question:".data) || containsSub (pyLower l) ("question".data) then
        match rest with
        | r :: _ =>
            if pyStrip r ≠ [] then some (pyStrip r)
            else
              epQuestionScan rest
                (match splitOnce l (":".data) with
                 | some pr => some (pyStrip pr.2)
                 | none => acc)
        | [] =>
            epQuestionScan rest
              (match splitOnce l (":".data) with
               | some pr => some (pyStrip pr.2)
               | none => acc)
      else epQuestionScan rest acc

/-- The correct-answer loop (lines 371-379): every matching line with a
plausible letter overwrites; the last one wins. -/
def epAnswerScan : List Str → Option Str → Option Str
  | [], acc => acc
  | l :: rest, acc =>
      if containsSub (pyLower l) ("correct answer:".data) || containsSub (pyLower l) ("answer:".data) then
        epAnswerScan rest
          (match splitOnce l (":".data) with
           | some pr =>
               match pyStrip pr.2 with
               | c :: _ => if c ∈ ['A', 'B', 'C', 'D', 'E'] then some [c] else acc
               | [] => acc
           | none => acc)
      else epAnswerScan rest acc

/-- The explanation loop (lines 383-391): each matching line collects the
following lines up to the next section marker (markers matched on the raw
lines); the last match wins. -/
def epExplScan : List Str → Option Str → Option Str
  | [], acc => acc
  | l :: rest, acc =>
      if containsSub (pyLower l) ("explanation:".data) || containsSub (pyLower l) ("solution:".data) then
        let collected := rest.takeWhile (fun j =>
          !(containsSub j ("question:".data) || containsSub j ("options:".data) ||
            containsSub j ("correct answer:".data)))
        epExplScan rest (some (pyStrip (joinNl collected)))
      else epExplScan rest acc

/-- `manually_extract_components(text, question_data)` (lines 316-393).
Unlike the sequential variant, keys are only added when something was
extracted, so the result may lack required keys.  (The source assigns
`result[...]` inside its loops; the scans above compute the final value of
each loop and the dict is updated once, which yields the same dict.) -/
def manually_extract_components (text : Str) (qd : QData) : Json :=
  let r : List (Str × Json) :=
    [("answer_stats".data, qd.answer_stats), ("session_stats".data, qd.session_stats)]
  let lines := splitCh nlc text
  let r :=
    if containsSub (pyLower text) ("question:".data) || containsSub (pyLower text) ("question".data) then
      match epQuestionScan lines none with
      | some q => objSet r ("question".data) (Json.str q)
      | none => r
    else r
  let is_ds := containsSub (metaType qd) ("Data Sufficiency".data) || metaType qd == ("DS".data)
  let r := objSet r ("question_type".data)
    (Json.str (if is_ds then "Data Sufficiency".data else "Problem Solving".data))
  let r :=
    if is_ds then objSet r ("options".data) (Json.obj dsOptionsObj)
    else
      let opts := [('A', "A:"), ('B', "B:"), ('C', "C:"), ('D', "D:"), ('E', "E:")].foldl
        (fun acc p =>
          if containsSub text p.2.data then
            match splitOnce text p.2.data with
            | some pr => objSet acc [p.1] (Json.str (pyStrip ((splitCh nlc pr.2).headD [])))
            | none => acc
          else acc) []
      if opts.isEmpty then r else objSet r ("options".data) (Json.obj opts)
  let r :=
    if containsSub (pyLower text) ("correct answer:".data) || containsSub (pyLower text) ("answer:".data) then
      match epAnswerScan lines none with
      | some a => objSet r ("correct_answer".data) (Json.str a)
      | none => r
    else r
  let r :=
    if containsSub (pyLower text) ("explanation:".data) || containsSub (pyLower text) ("solution:".data) then
      match epExplScan lines none with
      | some e => objSet r ("explanation".data) (Json.str e)
      | none => r
    else r
  Json.obj r

/-- The required keys of the exam-pack `generate_response` (line 270). -/
def requiredKeys : List Str :=
  ["question".data, "options".data, "question_type".data, "correct_answer".data,
   "explanation".data]

/-- The response-processing of the exam-pack `generate_response` (lines
234-290): unlike the sequential variant, a missing delimiter pair, a parse
failure or missing required keys all yield an `{"error": ...}` dict (the
manual extraction appears only under the `"extracted_text"` key of the
parse-failure case). -/
def handle_response (text : Str) (qd : QData) : Json :=
  match extract_json_str text with
  | some json_str =>
    match jsonParse json_str with
    | some (Json.obj kvs) =>
        let p1 := if hasKeyL kvs ("answer_stats".data) then kvs
                  else kvs ++ [("answer_stats".data, qd.answer_stats)]
        let p2 := if hasKeyL p1 ("session_stats".data) then p1
                  else p1 ++ [("session_stats".data, qd.session_stats)]
        let p3 :=
          if hasKeyL p2 ("question_type".data) then p2
          else if containsSub (metaType qd) ("Data Sufficiency".data) then
            p2 ++ [("question_type".data, Json.str ("Data Sufficiency".data))]
          else p2 ++ [("question_type".data, Json.str ("Problem Solving".data))]
        let p4 :=
          if (match lookupL p3 ("question_type".data) with
              | some (Json.str t) => t == ("Data Sufficiency".data)
              | _ => false) || metaType qd == ("DS".data) then
            objSet p3 ("options".data) (Json.obj dsOptionsObj)
          else p3
        if requiredKeys.all (fun k => hasKeyL p4 k) then Json.obj p4
        else
          let missing := requiredKeys.filter (fun k => !(hasKeyL p4 k))
          Json.obj [("error".data,
                     Json.str ("Missing required keys in JSON: ".data ++
                               List.intercalate (", ".data) missing)),
                    ("partial_json".data, Json.obj p4),
                    ("raw_response".data, Json.str text)]
    | some _ =>
        -- unreachable: the slice begins with a brace, so a successful parse
        -- is an object; transcribed to the decode-error branch
        Json.obj [("error".data, Json.str ("Invalid JSON format".data)),
                  ("raw_response".data, Json.str text),
                  ("extracted_text".data, manually_extract_components text qd)]
    | none =>
        Json.obj [("error".data, Json.str ("Invalid JSON format".data)),
                  ("raw_response".data, Json.str text),
                  ("extracted_text".data, manually_extract_components text qd)]
  | none =>
    Json.obj [("error".data, Json.str ("Could not find JSON structure".data)),
              ("raw_response".data, Json.str text)]

/-- The exam-pack driver's disk state.  `aggFile` is the
`all_processed_questions.json` aggregate (`none` = absent; the model only
represents list-shaped contents, the only shape the script writes). -/
structure FS where
  outputs : List (Str × Json)
  cpFile : CpFile
  errLog : List ErrLine
  aggFile : Option (List Json)
  clock : Nat

/-- Append a timestamped line to the error log. -/
def appendLog (fs : FS) (f msg : Str) : FS :=
  { fs with errLog := fs.errLog ++ [⟨fs.clock, f, msg⟩], clock := fs.clock + 1 }

/-- `generate_response(question_data, retry_count)` (lines 207-314): on
`RequestException` the retry path writes the error log before sleeping
(lines 300-301), and exhaustion writes it again (lines 311-312); a failure
of those log writes raises out of `generate_response` (`.error` carries the
state at that point). -/
def generate_response_go (env : Env) (fname : Str) (qd : QData) :
    Nat → Nat → FS → Except FS (Json × FS)
  | fuel, retry_count, fs =>
      match env.svc fname retry_count with
      | .resp text => .ok (handle_response text qd, fs)
      | .exc m =>
          if retry_count < MAX_RETRIES then
            match fuel with
            | fuel' + 1 =>
                if env.errorLogOk fname then
                  generate_response_go env fname qd fuel' (retry_count + 1)
                    (appendLog fs fname ("API request failed: ".data ++ m ++ ". Retrying...".data))
                else .error fs
            | 0 => .error fs
          else
            if env.errorLogOk fname then
              .ok (errObj ("API request failed after 3 retries: ".data ++ m),
                   appendLog fs fname ("Max retries reached. API request failed: ".data ++ m))
            else .error fs
termination_by structural fuel _ _ => fuel

/-- As in the sequential driver, `MAX_RETRIES - retry_count` bounds the
remaining recursion depth, so `generate_response_go`'s fuel-exhaustion
branch is unreachable. -/
def generate_response (env : Env) (fname : Str) (qd : QData) (retry_count : Nat)
    (fs : FS) : Except FS (Json × FS) :=
  generate_response_go env fname qd (MAX_RETRIES - retry_count) retry_count fs

/-- The per-item output-file name (line 494). -/
def outName (qd : QData) : Str :=
  "processed_".data ++ qd.question_number ++ ".json".data

/-- Outcome of one iteration of the inner file loop (lines 467-516):
`ok` means the result was appended to `batch_results` (note a
`save_checkpoint` failure is caught *after* that append, so the item still
counts); `failed` means the per-item `except` caught and logged an
exception before the result was recorded; `raised` means the handler's own
log write raised, escaping the loop. -/
inductive ItemOut where
  | ok (result : Json) (mem : List Str) (fs : FS)
  | failed (fs : FS)
  | raised (fs : FS)

/-- One iteration of the inner file loop (lines 467-516). -/
def process_one (env : Env) (fname : Str) (mem : List Str) (fs : FS) : ItemOut :=
  if env.loadOk fname then
    let qd := mkQData env fname
    match generate_response env fname qd 0 fs with
    | .error fs1 => .raised fs1
    | .ok (resp, fs1) =>
        let result := Json.obj
          [("question_number".data, Json.str qd.question_number),
           ("source_url".data, Json.str qd.source_url),
           ("metadata".data, Json.obj (metaJson qd.metadata)),
           ("analysis".data, resp)]
        if env.saveResultOk fname then
          let fs2 := { fs1 with outputs := fs1.outputs ++ [(outName qd, result)] }
          let mem' := mem ++ [fname]
          if env.saveCpOk fname then
            .ok result mem' { fs2 with cpFile := .good mem' }
          else if env.errorLogOk fname then
            .ok result mem' (appendLog fs2 fname ("save_checkpoint failed".data))
          else .raised fs2
        else if env.errorLogOk fname then
          .failed (appendLog fs1 fname ("save_result failed".data))
        else .raised fs1
  else if env.errorLogOk fname then
    .failed (appendLog fs fname ("load_html_file failed".data))
  else .raised fs

/-- Outcome of a batch's inner loop. -/
inductive BatchOut where
  | ok (results : List Json) (mem : List Str) (fs : FS)
  | crashed (fs : FS)

/-- The inner file loop over one batch. -/
def runBatchItems (env : Env) : List Str → List Str → FS → BatchOut
  | [], mem, fs => .ok [] mem fs
  | f :: rest, mem, fs =>
      match process_one env f mem fs with
      | .raised fs1 => .crashed fs1
      | .failed fs1 => runBatchItems env rest mem fs1
      | .ok r mem' fs1 =>
          match runBatchItems env rest mem' fs1 with
          | .ok rs memF fsF => .ok (r :: rs) memF fsF
          | .crashed fsF => .crashed fsF

/-- Split a list into consecutive chunks of size `n` (the
`range(0, len, BATCH_SIZE)` slicing). -/
def chunksAux {α : Type} : Nat → Nat → List α → List (List α)
  | 0, _, _ => []
  | fuel + 1, n, l => if l.isEmpty then [] else l.take n :: chunksAux fuel n (l.drop n)

/-- `remaining_files[i:i+BATCH_SIZE]` for `i` in steps of `BATCH_SIZE`. -/
def chunks {α : Type} (n : Nat) (l : List α) : List (List α) :=
  chunksAux l.length n l

/-- `r.get("question_number")`. -/
def getQN (r : Json) : Option Json :=
  objGet r ("question_number".data)

/-- A whole exam-pack run: the run's accumulated `all_results`, the final
in-memory `processed_files`, and the final disk state; `crashed` when an
exception escaped the loops. -/
inductive RunOut where
  | finished (allResults : List Json) (mem : List Str) (fs : FS)
  | crashed (fs : FS)

/-- The batch loop of `process_all_files` (lines 460-557): run the batch's
inner loop, extend `all_results`, then rewrite the aggregate file with the
current results plus previous entries whose question number is not already
present. -/
def runBatches (env : Env) : List (List Str) → List Json → List Str → FS → RunOut
  | [], all, mem, fs => .finished all mem fs
  | b :: rest, all, mem, fs =>
      match runBatchItems env b mem fs with
      | .crashed fs1 => .crashed fs1
      | .ok rs mem' fs1 =>
          let all' := all ++ rs
          if env.aggOk then
            let prev := fs1.aggFile.getD []
            let keys := all'.map getQN
            let combined := all' ++ prev.filter (fun r => !(keys.any (fun q => jbeqO q (getQN r))))
            runBatches env rest all' mem' { fs1 with aggFile := some combined }
          else .crashed fs1

/-- `process_all_files(start_idx, end_idx, limit)` (lines 415-561): filter
the glob result against the checkpoint, early-return if nothing remains,
sort, apply the start/end/limit range, and run the batches. -/
def process_all_files (env : Env) (startIdx endIdx limit : Option Nat) (fs0 : FS) : RunOut :=
  let html_files := env.files
  let mem0 := cpRead fs0.cpFile
  let remaining := html_files.filter (fun f => !(mem0.contains f))
  if remaining.isEmpty then .finished [] mem0 fs0
  else
    let rem2 := sortStr remaining
    let rem3 :=
      if startIdx.isSome || endIdx.isSome || limit.isSome then
        let st := startIdx.getD 0
        let en := endIdx.getD rem2.length
        let en := match limit with
          | some l => min (st + l) rem2.length
          | none => en
        pySliceList rem2 st en
      else rem2
    runBatches env (chunks BATCH_SIZE rem3) [] mem0 fs0

end ExamPacks

/-! ## Python truthiness, `in` and subscripting on JSON values
(needed by `combineResults.is_valid_result`, whose argument is an arbitrary
parsed JSON value). -/

/-- Python truthiness of a JSON value. -/
def pyTruthy : Json → Bool
  | .null => false
  | .bool b => b
  | .num n => n != 0
  | .str cs => !cs.isEmpty
  | .arr xs => !xs.isEmpty
  | .obj kvs => !kvs.isEmpty

/-- Python `k in v` for a string `k`: key membership for dicts, element
equality for lists, substring test for strings; `none` models the
`TypeError` raised for the other types. -/
def pyIn (k : Str) : Json → Option Bool
  | .obj kvs => some (hasKeyL kvs k)
  | .arr xs => some (xs.any (fun x => match x with
      | Json.str t => t == k
      | _ => false))
  | .str t => some (containsSub t k)
  | _ => none

/-- Python `v[k]` for a string key: dict lookup; `none` models the
`TypeError`/`KeyError` raised otherwise. -/
def pySubscript (v : Json) (k : Str) : Option Json :=
  match v with
  | .obj kvs => lookupL kvs k
  | _ => none

/-! ## `combineResults.py` -/

namespace Combine

/-- The required keys of `is_valid_result` (line 32). -/
def requiredKeys : List Str :=
  ["question".data, "options".data, "correct_answer".data, "explanation".data]

/-- `isinstance(analysis, dict) and 'error' in analysis` (line 28): the
analysis "carries an error indicator" when it is a dict with an `'error'`
key. -/
def hasErrorMark (a : Json) : Bool :=
  match a with
  | Json.obj kvs => hasKeyL kvs ("error".data)
  | _ => false

/-- `all(key in analysis for key in required_keys)`, with Python's lazy
evaluation: a `TypeError` (non-container `analysis`) raises at the first
key; a missing key answers `False` immediately. -/
def allKeysIn (ks : List Str) (analysis : Json) : Except Unit Bool :=
  match ks with
  | [] => .ok true
  | k :: rest =>
      match pyIn k analysis with
      | none => .error ()
      | some false => .ok false
      | some true => allKeysIn rest analysis

/-- `is_valid_result(result)` (lines 20-33), for an arbitrary parsed JSON
value: `False` for falsy values or when `'analysis' not in result`; `False`
when the analysis is a dict carrying `'error'`; otherwise all required keys
must be present (`.error ()` models a raised `TypeError`). -/
def is_valid_result (result : Json) : Except Unit Bool :=
  if !(pyTruthy result) then .ok false
  else
    match pyIn ("analysis".data) result with
    | none => .error ()
    | some false => .ok false
    | some true =>
        match pySubscript result ("analysis".data) with
        | none => .error ()
        | some analysis =>
            if hasErrorMark analysis then .ok false
            else allKeysIn requiredKeys analysis

end Combine

/-! ## The checkpoint loaders, on the raw on-disk file
(`load_checkpoint`, lines 351-360 of the sequential script, and
`read_checkpoint`, lines 401-407 of the exam-pack script). -/

/-- The checkpoint file's raw on-disk state: absent, present but unreadable
(opening or reading it raises an `OSError` such as `PermissionError`), or
present with the given text content. -/
inductive CheckpointDisk where
  | absent
  | unreadable
  | present (content : Str)

/-- The default checkpoint record `{"processed_files": []}`. -/
def cpDefault : Json :=
  Json.obj [("processed_files".data, Json.arr [])]

/-- The identifiers recorded in a checkpoint JSON value
(`checkpoint.get("processed_files", [])`, as a JSON value). -/
def cpIdsJson (j : Json) : Json :=
  match objGet j ("processed_files".data) with
  | some v => v
  | none => Json.arr []

namespace CRSeq

/-- `load_checkpoint()` (lines 351-360): `os.path.exists` then `json.load`
inside a `try`/`except Exception`, so every failure mode — absent file,
unreadable file, unparsable content — yields the default record. -/
def load_checkpoint : CheckpointDisk → Json
  | .absent => cpDefault
  | .unreadable => cpDefault
  | .present c =>
      match jsonParse c with
      | some j => j
      | none => cpDefault

end CRSeq

namespace ExamPacks

/-- `read_checkpoint()` (lines 401-407): `open` + `json.load` inside
`except (FileNotFoundError, json.JSONDecodeError)`.  An absent file and
unparsable content are handled; an unreadable file raises an uncaught
`OSError` (`.error ()`). -/
def read_checkpoint : CheckpointDisk → Except Unit Json
  | .absent => .ok cpDefault
  | .unreadable => .error ()
  | .present c =>
      .ok (match jsonParse c with
           | some j => j
           | none => cpDefault)

end ExamPacks

/-! ## Projections and invariants used by the statements -/

namespace CRSeq

/-- Status of a per-item outcome (`none` when the item raised). -/
def ItemOut.statusOf : ItemOut → Option Status
  | .done st _ _ => some st
  | .raised _ _ => none

/-- Disk state after a per-item outcome. -/
def ItemOut.endFs : ItemOut → FS
  | .done _ fs _ => fs
  | .raised fs _ => fs

/-- Snapshots of a per-item outcome. -/
def ItemOut.trOf : ItemOut → List FS
  | .done _ _ tr => tr
  | .raised _ tr => tr

/-- The final in-memory `processed_files` of a finished run (junk `[]` for
an aborted one). -/
def RunOut.endMem : RunOut → List Str
  | .finished _ mem _ _ => mem
  | .aborted _ _ _ => []

/-- The names of the items a status list records as `"processed"`. -/
def procOf (items : List (Str × Status)) : List Str :=
  (items.filter (fun p => p.2 == Status.processed)).map Prod.fst

/-- The resume invariant on the disk: every identifier in the checkpoint
file has a corresponding output file. -/
def cpInv (fs : FS) : Prop :=
  ∀ f ∈ cpRead fs.cpFile, outName f ∈ fs.outputs.map Prod.fst

/-- The same coverage property for the in-memory `processed_files` list. -/
def memCov (mem : List Str) (fs : FS) : Prop :=
  ∀ f ∈ mem, outName f ∈ fs.outputs.map Prod.fst

end CRSeq

namespace ExamPacks

/-- Whether an exam-pack run ran to completion. -/
def RunOut.isFinished : RunOut → Bool
  | .finished .. => true
  | .crashed _ => false

/-- Final disk state of an exam-pack run. -/
def RunOut.endFs : RunOut → FS
  | .finished _ _ fs => fs
  | .crashed fs => fs

/-- The run's accumulated `all_results` (junk `[]` for a crashed run). -/
def RunOut.allResults : RunOut → List Json
  | .finished a _ _ => a
  | .crashed _ => []

/-- The final in-memory `processed_files` (junk `[]` for a crashed run). -/
def RunOut.endMem : RunOut → List Str
  | .finished _ m _ => m
  | .crashed _ => []

/-- The per-item output-file name, as a function of the source file name
(`outName (mkQData env f)` does not depend on the environment). -/
def epOut (f : Str) : Str :=
  "processed_".data ++ pyReplace (pyReplace f ("question_".data) []) (".html".data) [] ++
    ".json".data

/-- The question number derived from a file name (line 37). -/
def epQnum (f : Str) : Str :=
  pyReplace (pyReplace f ("question_".data) []) (".html".data) []

end ExamPacks

/-! ## Concrete environments for witnesses and counterexamples -/

/-- A service response whose embedded JSON object parses and carries every
required key of the sequential driver. -/
def goodText : Str :=
  ("ok \x7b\"argument\": \"a\", \"question_stem\": \"q\", \"options\": \x7b\"A\": \"x\"\x7d, \"correct_answer\": \"A\", \"explanation\": \"e\"\x7d done").data

/-- An empty starting disk for the sequential driver. -/
def fsEmptySeq : CRSeq.FS := ⟨[], .absent, [], [], 0⟩

/-- A sequential environment whose single file loads and whose service
responds with `goodText` at once; every write succeeds. -/
def envSeqOk : CRSeq.Env :=
  { files := ["cr_1.html".data]
    loadOk := fun _ => true
    meta := fun _ => []
    astats := fun _ => Json.null
    sstats := fun _ => Json.null
    srcUrl := fun _ => []
    svc := fun _ _ => .resp goodText
    saveResultOk := fun _ => true
    errorLogOk := fun _ => true
    saveCpOk := fun _ => true }

/-- A sequential environment whose service fails exactly three times for
`cr_9.html` and then succeeds on the fourth attempt. -/
def envFail3 : CRSeq.Env :=
  { envSeqOk with
    files := ["cr_9.html".data]
    svc := fun _ k => if k < 3 then .exc ("t".data) else .resp goodText }

/-- A sequential environment whose service fails on every attempt. -/
def envFail4 : CRSeq.Env :=
  { envSeqOk with
    files := ["cr_9.html".data]
    svc := fun _ _ => .exc ("t".data) }

/-- A sequential environment in which loading `a.html` raises and every
error-log append raises as well. -/
def envLogBroken : CRSeq.Env :=
  { envSeqOk with
    files := ["a.html".data, "b.html".data]
    loadOk := fun f => !(f = "a.html".data : Bool)
    errorLogOk := fun _ => false }

/-- Like `envLogBroken`, but the error-log appends succeed. -/
def envLogOkLoadFail : CRSeq.Env :=
  { envSeqOk with
    files := ["a.html".data, "b.html".data]
    loadOk := fun f => !(f = "a.html".data : Bool) }

/-- An empty starting disk for the exam-pack driver. -/
def fsEmptyEP : ExamPacks.FS := ⟨[], .absent, [], none, 0⟩

/-- Ten exam-pack source files in scrambled (non-lexicographic) glob
order. -/
def epTenFiles : List Str :=
  [("question_3.html").data, ("question_1.html").data, ("question_4.html").data,
   ("question_0.html").data, ("question_2.html").data, ("question_5.html").data,
   ("question_9.html").data, ("question_7.html").data, ("question_8.html").data,
   ("question_6.html").data]

/-- An exam-pack environment over the ten files in which every external
call and write succeeds (the service replies with brace-free text, which
the exam-pack driver still persists and checkpoints). -/
def envEPTen : ExamPacks.Env :=
  { files := epTenFiles
    loadOk := fun _ => true
    meta := fun _ => []
    astats := fun _ => Json.null
    sstats := fun _ => Json.null
    srcUrl := fun _ => []
    svc := fun _ _ => .resp ("plain text").data
    saveResultOk := fun _ => true
    errorLogOk := fun _ => true
    saveCpOk := fun _ => true
    aggOk := true }

/-- A question-data record with empty external fields, for response-level
counterexamples. -/
def qdPlain : QData := ⟨"7".data, [], [], Json.null, Json.null⟩

/-- A response text with no brace delimiters at all. -/
def noBraceText : Str := ("Answer: A because reasons").data

/-- Leading prose that itself contains a `{`. -/
def proseWithBrace : Str := ("see \x7b").data

/-- A well-formed embedded JSON object. -/
def smallObj : Str := ("\x7b\"a\": \"b\"\x7d").data

/-- What the first-`{`-to-last-`}` slice actually produces for
`proseWithBrace ++ smallObj`. -/
def badSlice : Str := ("\x7b\x7b\"a\": \"b\"\x7d").data


/-- A concrete parsable checkpoint file content. -/
def cpGoodText : Str := ("\x7b\"processed_files\": [\"a.html\"]\x7d").data

/-- What `cpGoodText` parses to. -/
def cpGoodJson : Json :=
  Json.obj [("processed_files".data, Json.arr [Json.str ("a.html".data)])]

/-- The disk left by a run of `envFail4` over its single file from
`fsEmptySeq`: no outputs, no checkpoint, one error-log line, four
recorded service calls. -/
def fsFail4End : CRSeq.FS :=
  ⟨[], .absent,
   [⟨0, ("cr_9.html").data, ("API request failed after 3 retries: t").data⟩],
   [(("cr_9.html").data, 0), (("cr_9.html").data, 1),
    (("cr_9.html").data, 2), (("cr_9.html").data, 3)], 1⟩

/-! # Lemmas -/

lemma findFromAux_single_neg {c : Char} {t : Str} (h : c ∉ t) :
    ∀ i, findFromAux [c] t i = none := by
  induction t with
  | nil => intro i; simp [findFromAux, List.isPrefixOf]
  | cons x xs ih =>
      intro i
      have hx : ¬((c == x) = true) := by
        simp only [beq_iff_eq]
        rintro rfl
        exact h (List.mem_cons_self _ _)
      simp only [findFromAux, List.isPrefixOf, Bool.and_eq_true] at *
      rw [if_neg (by simp [hx])]
      exact ih (fun hm => h (List.mem_cons_of_mem _ hm)) (i + 1)

lemma findFromAux_single_append {c : Char} {xs : Str} (ys : Str) (h : c ∉ xs) :
    ∀ i, findFromAux [c] (xs ++ c :: ys) i = some (i + xs.length) := by
  induction xs with
  | nil =>
      intro i
      simp [findFromAux, List.isPrefixOf]
  | cons x t ih =>
      intro i
      have hx : ¬((c == x) = true) := by
        simp only [beq_iff_eq]
        rintro rfl
        exact h (List.mem_cons_self _ _)
      simp only [List.cons_append, findFromAux, List.isPrefixOf, List.append_eq]
      rw [if_neg (by simp [hx])]
      rw [ih (fun hm => h (List.mem_cons_of_mem _ hm)) (i + 1)]
      simp only [List.length_cons]
      congr 1
      omega

lemma rfindAux_single_skip {c : Char} {ys : Str} (h : c ∉ ys) :
    ∀ i best, rfindAux [c] ys i best = best := by
  induction ys with
  | nil => intro i best; simp [rfindAux, List.isPrefixOf]
  | cons y t ih =>
      intro i best
      have hy : ¬((c == y) = true) := by
        simp only [beq_iff_eq]
        rintro rfl
        exact h (List.mem_cons_self _ _)
      simp only [rfindAux, List.isPrefixOf]
      rw [if_neg (by simp [hy])]
      exact ih (fun hm => h (List.mem_cons_of_mem _ hm)) (i + 1) best

lemma rfindAux_single_last {c : Char} {ys : Str} (xs : Str) (h : c ∉ ys) :
    ∀ i best, rfindAux [c] (xs ++ c :: ys) i best = some (i + xs.length) := by
  induction xs with
  | nil =>
      intro i best
      simp only [List.nil_append, rfindAux, List.isPrefixOf]
      rw [if_pos (by simp)]
      rw [rfindAux_single_skip h]
      simp
  | cons x t ih =>
      intro i best
      simp only [List.cons_append, rfindAux, List.append_eq]
      rw [ih (i + 1) _]
      simp only [List.length_cons]
      congr 1
      omega

lemma pyFind_single_neg {c : Char} {t : Str} (h : c ∉ t) : pyFind t [c] = -1 := by
  simp [pyFind, findFromAux_single_neg h]

lemma pyFind_single_append {c : Char} {xs : Str} (ys : Str) (h : c ∉ xs) :
    pyFind (xs ++ c :: ys) [c] = (xs.length : Int) := by
  simp [pyFind, findFromAux_single_append ys h]

lemma pyRfind_single_neg {c : Char} {t : Str} (h : c ∉ t) : pyRfind t [c] = -1 := by
  simp [pyRfind, rfindAux_single_skip h]

lemma pyRfind_single_last {c : Char} {ys : Str} (xs : Str) (h : c ∉ ys) :
    pyRfind (xs ++ c :: ys) [c] = (xs.length : Int) := by
  simp [pyRfind, rfindAux_single_last xs h]

lemma pySlice_exact (p1 mid p2 : Str) :
    pySlice (p1 ++ mid ++ p2) (p1.length : Int) ((p1.length : Int) + (mid.length : Int)) = mid := by
  unfold pySlice
  have h1 : ((p1.length : Int)).toNat = p1.length := Int.toNat_natCast _
  have h2 : ((p1.length : Int) + (mid.length : Int)).toNat = p1.length + mid.length := by
    rw [← Nat.cast_add, Int.toNat_natCast]
  rw [h1, h2, Nat.add_sub_cancel_left]
  rw [List.append_assoc, List.drop_left, List.take_left]

/-- The no-delimiter condition makes `extract_json_str` fail. -/
lemma extract_json_str_none {text : Str} (h : lbrace ∉ text ∨ rbrace ∉ text) :
    extract_json_str text = none := by
  simp only [extract_json_str]
  rcases h with h | h
  · rw [pyFind_single_neg h, if_neg (by rintro ⟨h1, -⟩; omega)]
  · rw [pyRfind_single_neg h, if_neg (by rintro ⟨h1, h2⟩; omega)]

/-! # Claim theorems -/

/-- Claim C4 (amended): for a service response `p1 ++ obj ++ p2` with one
well-formed JSON object `obj` (beginning with `{`, ending with `}`, parsed
by the model of `json.loads` to `v`), the structured path's
first-`{`-to-last-`}` slice extracts exactly `obj` and parses it to `v` —
*provided* the leading prose contains no `{` and the trailing prose
contains no `}` (the unconditional claim is refuted by
`claim4_counterexample`). -/
theorem claim4_embedded_object_extraction (p1 obj p2 : Str) (v : Json)
    (h1 : lbrace ∉ p1) (h2 : rbrace ∉ p2)
    (h3 : ∃ mid, obj = lbrace :: mid) (h4 : ∃ front, obj = front ++ [rbrace])
    (h5 : jsonParse obj = some v) :
    extract_json_str (p1 ++ obj ++ p2) = some obj ∧ jsonParse obj = some v := by
  refine ⟨?_, h5⟩
  obtain ⟨mid, hmid⟩ := h3
  obtain ⟨front, hfront⟩ := h4
  have hfind : pyFind (p1 ++ obj ++ p2) [lbrace] = (p1.length : Int) := by
    rw [hmid, List.append_assoc, List.cons_append]
    exact pyFind_single_append _ h1
  have hlen : obj.length = front.length + 1 := by rw [hfront]; simp
  have hrfind : pyRfind (p1 ++ obj ++ p2) [rbrace] = ((p1.length + front.length : Nat) : Int) := by
    have : p1 ++ obj ++ p2 = (p1 ++ front) ++ rbrace :: p2 := by
      rw [hfront]
      simp [List.append_assoc]
    rw [this]
    have := @pyRfind_single_last rbrace p2 (p1 ++ front) h2
    simpa using this
  simp only [extract_json_str, hfind, hrfind]
  rw [if_pos (by constructor <;> [omega; (push_cast; omega)])]
  have hcast : ((p1.length + front.length : Nat) : Int) + 1 =
      (p1.length : Int) + (obj.length : Int) := by
    rw [hlen]; push_cast; omega
  rw [hcast, pySlice_exact]

/-- Claim C4 counterexample: with leading prose that itself contains a `{`
(`"see {"`), the slice is `"{{"a": "b"}"`, not the embedded well-formed
object `"{"a": "b"}"`, and it does not parse — so extraction does *not*
succeed "regardless of the content of the surrounding prose". -/
theorem claim4_counterexample :
    jsonParse smallObj = some (Json.obj [("a".data, Json.str ("b".data))]) ∧
    extract_json_str (proseWithBrace ++ smallObj) = some badSlice ∧
    badSlice ≠ smallObj ∧
    jsonParse badSlice = none :=
  ⟨rfl, rfl, by decide, rfl⟩

/-- Witness for C4: a concrete embedded object between brace-free prose. -/
theorem claim4_witness :
    lbrace ∉ ("note ").data ∧ rbrace ∉ (" tail").data ∧
    (∃ mid, smallObj = lbrace :: mid) ∧ (∃ front, smallObj = front ++ [rbrace]) ∧
    jsonParse smallObj = some (Json.obj [("a".data, Json.str ("b".data))]) ∧
    (extract_json_str (("note ").data ++ smallObj ++ (" tail").data) = some smallObj ∧
     jsonParse smallObj = some (Json.obj [("a".data, Json.str ("b".data))])) :=
  ⟨by decide, by decide,
   ⟨("\"a\": \"b\"\x7d").data, by decide⟩, ⟨("\x7b\"a\": \"b\"").data, by decide⟩, rfl,
   claim4_embedded_object_extraction ("note ").data smallObj (" tail").data _
     (by decide) (by decide)
     ⟨("\"a\": \"b\"\x7d").data, by decide⟩ ⟨("\x7b\"a\": \"b\"").data, by decide⟩ rfl⟩

lemma allKeysIn_ok_true_iff (ks : List Str) (a : Json) :
    Combine.allKeysIn ks a = .ok true ↔ ∀ k ∈ ks, pyIn k a = some true := by
  induction ks with
  | nil => simp [Combine.allKeysIn]
  | cons k rest ih =>
      simp only [Combine.allKeysIn]
      cases hin : pyIn k a with
      | none => simp [hin]
      | some b =>
          cases b with
          | false => simp [hin]
          | true => simpa [hin] using ih

lemma lookupL_some_ne_nil {kvs : List (Str × Json)} {k : Str} {a : Json}
    (h : lookupL kvs k = some a) : kvs ≠ [] := by
  intro hnil
  rw [hnil] at h
  simp [lookupL] at h

/-- Claim C9: a result is classified valid by `is_valid_result` exactly when
it has an `analysis` member that carries no error indicator and in which
every required field (question, options, correct_answer, explanation) is
present — where "present" is Python's `in` (key membership for a dict
analysis, and Python's element/substring membership for list or string
analyses, which the source applies unguarded). -/
theorem claim9_is_valid_result_characterization (r : Json) :
    Combine.is_valid_result r = .ok true ↔
      ∃ a, pySubscript r ("analysis".data) = some a ∧
        Combine.hasErrorMark a = false ∧
        ∀ k ∈ Combine.requiredKeys, pyIn k a = some true := by
  constructor
  · intro h
    simp only [Combine.is_valid_result] at h
    split at h
    · simp at h
    · split at h
      · simp at h
      · simp at h
      · split at h
        · simp at h
        · rename_i hsub
          split at h
          · simp at h
          · rename_i herr
            exact ⟨_, hsub, by simpa using herr, (allKeysIn_ok_true_iff _ _).mp h⟩
  · rintro ⟨a, hsub, herr, hall⟩
    obtain ⟨kvs, rfl, hlk⟩ : ∃ kvs, r = Json.obj kvs ∧
        lookupL kvs ("analysis".data) = some a := by
      cases r <;> simp [pySubscript] at hsub
      exact ⟨_, rfl, hsub⟩
    have hne : kvs ≠ [] := lookupL_some_ne_nil hlk
    have ht : pyTruthy (Json.obj kvs) = true := by simp [pyTruthy, hne]
    have hin : pyIn ("analysis".data) (Json.obj kvs) = some true := by
      simp [pyIn, hasKeyL, hlk]
    have hsub2 : pySubscript (Json.obj kvs) ("analysis".data) = some a := hsub
    rw [show Combine.is_valid_result (Json.obj kvs) =
        Combine.allKeysIn Combine.requiredKeys a by
      simp [Combine.is_valid_result, ht, hin, hsub2, herr]]
    exact (allKeysIn_ok_true_iff _ _).mpr hall

/-- Witness for C9: a concrete valid and a concrete invalid result. -/
theorem claim9_witness :
    (Combine.is_valid_result (Json.obj [("analysis".data,
        Json.obj [("question".data, Json.str []), ("options".data, Json.obj []),
                  ("correct_answer".data, Json.str ("A".data)),
                  ("explanation".data, Json.str [])])]) = .ok true ↔
      ∃ a, pySubscript (Json.obj [("analysis".data,
        Json.obj [("question".data, Json.str []), ("options".data, Json.obj []),
                  ("correct_answer".data, Json.str ("A".data)),
                  ("explanation".data, Json.str [])])]) ("analysis".data) = some a ∧
        Combine.hasErrorMark a = false ∧
        ∀ k ∈ Combine.requiredKeys, pyIn k a = some true) :=
  claim9_is_valid_result_characterization _

/-- Claim C8 (amended): the sequential `load_checkpoint` never raises —
absent, unreadable and unparsable checkpoint files all yield the default
record, whose identifier list is empty, and a parsable file yields the
parsed record (the recorded identifiers).  The exam-pack `read_checkpoint`
does the same for absent and unparsable files, but raises on an unreadable
file (see the counterexample). -/
theorem claim8_load_checkpoint_fails_soft (c cj : Str) (j : Json)
    (hc : jsonParse c = none) (hj : jsonParse cj = some j) :
    CRSeq.load_checkpoint .absent = cpDefault ∧
    CRSeq.load_checkpoint .unreadable = cpDefault ∧
    CRSeq.load_checkpoint (.present c) = cpDefault ∧
    CRSeq.load_checkpoint (.present cj) = j ∧
    cpIdsJson cpDefault = Json.arr [] ∧
    ExamPacks.read_checkpoint .absent = .ok cpDefault ∧
    ExamPacks.read_checkpoint (.present c) = .ok cpDefault ∧
    ExamPacks.read_checkpoint (.present cj) = .ok j := by
  refine ⟨rfl, rfl, ?_, ?_, rfl, rfl, ?_, ?_⟩ <;>
    simp [CRSeq.load_checkpoint, ExamPacks.read_checkpoint, hc, hj]

/-- Claim C8 counterexample: the exam-pack `read_checkpoint` catches only
`FileNotFoundError` and `json.JSONDecodeError`, so a present-but-unreadable
checkpoint file raises instead of yielding the empty collection. -/
theorem claim8_counterexample :
    ExamPacks.read_checkpoint .unreadable = .error () := rfl

/-- Witness for C8: a concrete unparsable and a concrete parsable
checkpoint content. -/
theorem claim8_witness :
    jsonParse ("oops".data) = none ∧ jsonParse cpGoodText = some cpGoodJson ∧
    CRSeq.load_checkpoint (.present ("oops".data)) = cpDefault ∧
    CRSeq.load_checkpoint (.present cpGoodText) = cpGoodJson :=
  ⟨rfl, rfl,
   (claim8_load_checkpoint_fails_soft ("oops".data) cpGoodText cpGoodJson rfl rfl).2.2.1,
   (claim8_load_checkpoint_fails_soft ("oops".data) cpGoodText cpGoodJson rfl rfl).2.2.2.1⟩

lemma lookupL_append_single {kvs : List (Str × Json)} {k : Str} (v : Json)
    (h : lookupL kvs k = none) : lookupL (kvs ++ [(k, v)]) k = some v := by
  induction kvs with
  | nil => simp [lookupL]
  | cons p t ih =>
      cases hpk : (p.1 == k) with
      | true => simp [lookupL, hpk] at h
      | false =>
          simp only [lookupL, hpk, Bool.false_eq_true, if_false] at h
          simp only [List.cons_append, lookupL, hpk, Bool.false_eq_true, if_false]
          exact ih h

lemma lookupL_append_ne {kvs : List (Str × Json)} {k k' : Str} (v : Json)
    (h : k' ≠ k) : lookupL (kvs ++ [(k, v)]) k' = lookupL kvs k' := by
  induction kvs with
  | nil =>
      have hkk : (k == k') = false := beq_eq_false_iff_ne.mpr (Ne.symm h)
      simp [lookupL, hkk]
  | cons p t ih =>
      cases hpk : (p.1 == k') with
      | true => simp [List.cons_append, lookupL, hpk]
      | false =>
          simp only [List.cons_append, lookupL, hpk, Bool.false_eq_true, if_false]
          exact ih

lemma lookupL_map_set {kvs : List (Str × Json)} {k : Str} (v : Json)
    (h : (lookupL kvs k).isSome) :
    lookupL (kvs.map (fun p => if p.1 == k then (p.1, v) else p)) k = some v := by
  induction kvs with
  | nil => simp [lookupL] at h
  | cons p t ih =>
      cases hpk : (p.1 == k) with
      | true => simp [List.map_cons, lookupL, hpk]
      | false =>
          simp only [lookupL, hpk, Bool.false_eq_true, if_false] at h
          simp only [List.map_cons, hpk, Bool.false_eq_true, if_false, lookupL]
          exact ih h

lemma lookupL_map_set_ne {kvs : List (Str × Json)} {k k' : Str} (v : Json)
    (h : k' ≠ k) :
    lookupL (kvs.map (fun p => if p.1 == k then (p.1, v) else p)) k' = lookupL kvs k' := by
  induction kvs with
  | nil => simp [lookupL]
  | cons p t ih =>
      cases hpk : (p.1 == k) with
      | true =>
          have hne : (p.1 == k') = false := by
            refine beq_eq_false_iff_ne.mpr ?_
            have : p.1 = k := by simpa using hpk
            rw [this]
            exact Ne.symm h
          simp only [List.map_cons, hpk, if_true, lookupL, hne, Bool.false_eq_true, if_false]
          exact ih
      | false =>
          simp only [List.map_cons, hpk, Bool.false_eq_true, if_false, lookupL]
          cases hpk' : (p.1 == k') with
          | true => simp
          | false =>
              simp only [Bool.false_eq_true, if_false]
              exact ih

lemma lookupL_objSet_self (kvs : List (Str × Json)) (k : Str) (v : Json) :
    lookupL (objSet kvs k v) k = some v := by
  unfold objSet hasKeyL
  by_cases h : (lookupL kvs k).isSome
  · rw [if_pos h]
    exact lookupL_map_set v h
  · rw [if_neg h]
    exact lookupL_append_single v (by simpa using h)

lemma lookupL_objSet_ne {k k' : Str} (kvs : List (Str × Json)) (v : Json) (h : k' ≠ k) :
    lookupL (objSet kvs k v) k' = lookupL kvs k' := by
  unfold objSet hasKeyL
  by_cases hs : (lookupL kvs k).isSome
  · rw [if_pos hs]
    exact lookupL_map_set_ne v h
  · rw [if_neg hs]
    exact lookupL_append_ne v h

lemma hasKeyL_objSet_of {kvs : List (Str × Json)} {k' : Str} (k : Str) (v : Json)
    (h : hasKeyL kvs k' = true) : hasKeyL (objSet kvs k v) k' = true := by
  unfold hasKeyL at h ⊢
  by_cases hk : k' = k
  · subst hk
    rw [lookupL_objSet_self]
    rfl
  · rw [lookupL_objSet_ne kvs v hk]
    exact h

lemma scanValue_none_of_not_contains {text m : Str} (h : containsSub text m = false) :
    CRSeq.scanValue text m = none := by
  simp only [containsSub] at h
  simp only [CRSeq.scanValue, pyFind]
  cases hf : findFromAux m text 0 with
  | none => simp
  | some n => rw [hf] at h; simp at h

lemma hasKeyL_foldl_scan (sec : Str) (letters : List Str) :
    ∀ (acc : List (Str × Json)) (k : Str), hasKeyL acc k = true →
      hasKeyL (letters.foldl (fun acc o =>
        match CRSeq.scanValue sec (dquote :: (o ++ [dquote])) with
        | some v => objSet acc o (Json.str v)
        | none => acc) acc) k = true := by
  induction letters with
  | nil => intro acc k h; simpa using h
  | cons o rest ih =>
      intro acc k h
      simp only [List.foldl_cons]
      apply ih
      cases hs : CRSeq.scanValue sec (dquote :: (o ++ [dquote])) with
      | none => simpa [hs] using h
      | some v =>
          simp only [hs]
          exact hasKeyL_objSet_of o (Json.str v) h

set_option maxHeartbeats 3200000 in
lemma manual_structure (text : Str) (qd : QData) :
    ∃ (argV stemV caV exV : Json) (optsV metaV : List (Str × Json)),
      CRSeq.manually_extract_components text qd = Json.obj
        [("argument".data, argV), ("question_stem".data, stemV),
         ("options".data, Json.obj optsV), ("correct_answer".data, caV),
         ("explanation".data, exV),
         ("question_type".data, Json.str ("Critical Reasoning".data)),
         ("metadata".data, Json.obj metaV),
         ("answer_stats".data, qd.answer_stats),
         ("session_stats".data, qd.session_stats),
         ("extraction_note".data,
          Json.str ("This response was manually extracted from an improperly formatted model output.".data))] ∧
      (∀ o ∈ ["A".data, "B".data, "C".data, "D".data, "E".data], hasKeyL optsV o = true) ∧
      (CRSeq.scanValue text ("\"argument\"".data) = none → argV = Json.str []) ∧
      (CRSeq.scanValue text ("\"question_stem\"".data) = none → stemV = Json.str []) ∧
      (CRSeq.scanValue text ("\"correct_answer\"".data) = none → caV = Json.str []) ∧
      (CRSeq.scanValue text ("\"explanation\"".data) = none → exV = Json.str []) ∧
      (¬ (pyFind text ("\"options\"".data) ≥ 0) → optsV =
        [("A".data, Json.str []), ("B".data, Json.str []), ("C".data, Json.str []),
         ("D".data, Json.str []), ("E".data, Json.str [])]) := by
  simp only [CRSeq.manually_extract_components]
  by_cases ho : pyFind text ("\"options\"".data) ≥ 0 <;>
    simp only [ho, if_true, if_false, not_true, not_false_iff] <;>
    cases h1 : CRSeq.scanValue text ("\"argument\"".data) <;>
    cases h2 : CRSeq.scanValue text ("\"question_stem\"".data) <;>
    cases h3 : CRSeq.scanValue text ("\"correct_answer\"".data) <;>
    cases h4 : CRSeq.scanValue text ("\"explanation\"".data) <;>
    cases h5 : CRSeq.scanValue text ("\"cr_specific_type\"".data) <;>
    (refine ⟨_, _, _, _, _, _, rfl, ?_, ?_, ?_, ?_, ?_, ?_⟩ <;>
      first
      | (intro o hoo
         first
         | (fin_cases hoo <;> rfl)
         | (exact hasKeyL_foldl_scan _ _ _ _ (by fin_cases hoo <;> rfl)))
      | (intro hn
         first
         | rfl
         | simp_all))

lemma pyFind_neg_of_not_contains {t m : Str} (h : containsSub t m = false) :
    pyFind t m = -1 := by
  simp only [containsSub] at h
  simp only [pyFind]
  cases hf : findFromAux m t 0 with
  | none => rfl
  | some n => rw [hf] at h; simp at h

/-- Claim C3 (amended): in the *sequential* driver, a service response text
with no `{` or `}` delimiter never yields an error: `generate_response`
degrades to `manually_extract_components`, whose result carries no
`"error"` key, contains every required key (argument, question_stem,
options with all of A-E, correct_answer, explanation, question_type), and
holds the empty string in every field whose literal marker does not occur
in the text.  The *exam-pack* variant does not have this property: its
no-delimiter branch records an error object instead (see the
counterexample). -/
theorem claim3_no_delimiter_fallback (text : Str) (qd : QData)
    (hnd : lbrace ∉ text ∨ rbrace ∉ text) :
    CRSeq.handle_response text qd = CRSeq.manually_extract_components text qd ∧
    (∀ (env : CRSeq.Env) (fname : Str) (fs : CRSeq.FS),
       env.svc fname 0 = .resp text →
       (CRSeq.generate_response env fname qd 0 fs).1 = CRSeq.handle_response text qd) ∧
    hasKey (CRSeq.manually_extract_components text qd) ("error".data) = false ∧
    (∀ k ∈ CRSeq.requiredKeys,
       hasKey (CRSeq.manually_extract_components text qd) k = true) ∧
    (∃ opts, objGet (CRSeq.manually_extract_components text qd) ("options".data) =
        some (Json.obj opts) ∧
      ∀ o ∈ ["A".data, "B".data, "C".data, "D".data, "E".data], hasKeyL opts o = true) ∧
    (containsSub text ("\"argument\"".data) = false →
       objGet (CRSeq.manually_extract_components text qd) ("argument".data) =
         some (Json.str [])) ∧
    (containsSub text ("\"question_stem\"".data) = false →
       objGet (CRSeq.manually_extract_components text qd) ("question_stem".data) =
         some (Json.str [])) ∧
    (containsSub text ("\"correct_answer\"".data) = false →
       objGet (CRSeq.manually_extract_components text qd) ("correct_answer".data) =
         some (Json.str [])) ∧
    (containsSub text ("\"explanation\"".data) = false →
       objGet (CRSeq.manually_extract_components text qd) ("explanation".data) =
         some (Json.str [])) ∧
    (containsSub text ("\"options\"".data) = false →
       objGet (CRSeq.manually_extract_components text qd) ("options".data) =
         some (Json.obj
           [("A".data, Json.str []), ("B".data, Json.str []), ("C".data, Json.str []),
            ("D".data, Json.str []), ("E".data, Json.str [])])) := by
  obtain ⟨argV, stemV, caV, exV, optsV, metaV, heq, hopts, himp1, himp2, himp3, himp4, himp5⟩ :=
    manual_structure text qd
  refine ⟨?_, ?_, ?_, ?_, ?_, ?_, ?_, ?_, ?_, ?_⟩
  · simp only [CRSeq.handle_response, extract_json_str_none hnd]
  · intro env fname fs h
    simp only [CRSeq.generate_response, CRSeq.generate_response_go, h]
  · rw [heq]; rfl
  · intro k hk
    rw [heq]
    fin_cases hk <;> rfl
  · exact ⟨optsV, by rw [heq]; rfl, hopts⟩
  · intro hc
    rw [heq, himp1 (scanValue_none_of_not_contains hc)]
    rfl
  · intro hc
    rw [heq, himp2 (scanValue_none_of_not_contains hc)]
    rfl
  · intro hc
    rw [heq, himp3 (scanValue_none_of_not_contains hc)]
    rfl
  · intro hc
    rw [heq, himp4 (scanValue_none_of_not_contains hc)]
    rfl
  · intro hc
    have hneg : ¬ (pyFind text ("\"options\"".data) ≥ 0) := by
      rw [pyFind_neg_of_not_contains hc]
      omega
    rw [heq, himp5 hneg]
    rfl

/-- Claim C3 counterexample: in the exam-pack driver, a brace-free service
response does *not* fall back to heuristic extraction — the response
processing returns an object carrying an `"error"` key and lacking the
required `"question"` key. -/
theorem claim3_counterexample :
    pyFind noBraceText [lbrace] = -1 ∧
    hasKey (ExamPacks.handle_response noBraceText qdPlain) ("error".data) = true ∧
    hasKey (ExamPacks.handle_response noBraceText qdPlain) ("question".data) = false :=
  ⟨rfl, rfl, rfl⟩

/-- Witness for C3: the concrete brace-free response. -/
theorem claim3_witness :
    (lbrace ∉ noBraceText ∨ rbrace ∉ noBraceText) ∧
    (CRSeq.handle_response noBraceText qdPlain =
       CRSeq.manually_extract_components noBraceText qdPlain ∧
     hasKey (CRSeq.manually_extract_components noBraceText qdPlain) ("error".data) = false ∧
     (containsSub noBraceText ("\"argument\"".data) = false →
        objGet (CRSeq.manually_extract_components noBraceText qdPlain) ("argument".data) =
          some (Json.str []))) :=
  have h := claim3_no_delimiter_fallback noBraceText qdPlain (Or.inl (by decide))
  ⟨Or.inl (by decide), h.1, h.2.2.1, h.2.2.2.2.2.1⟩

lemma generate_response_go_fs (env : CRSeq.Env) (f : Str) (qd : QData) :
    ∀ (fuel rc : Nat) (fs : CRSeq.FS),
      ((CRSeq.generate_response_go env f qd fuel rc fs).2.outputs = fs.outputs ∧
       (CRSeq.generate_response_go env f qd fuel rc fs).2.cpFile = fs.cpFile ∧
       (CRSeq.generate_response_go env f qd fuel rc fs).2.errLog = fs.errLog ∧
       (CRSeq.generate_response_go env f qd fuel rc fs).2.clock = fs.clock) := by
  intro fuel
  induction fuel with
  | zero =>
      intro rc fs
      rw [CRSeq.generate_response_go]
      cases hsvc : env.svc f rc with
      | resp t => simp [hsvc]
      | exc m =>
          by_cases hrc : rc < CRSeq.MAX_RETRIES <;> simp [hsvc, hrc]
  | succ fuel ih =>
      intro rc fs
      rw [CRSeq.generate_response_go]
      cases hsvc : env.svc f rc with
      | resp t => simp [hsvc]
      | exc m =>
          by_cases hrc : rc < CRSeq.MAX_RETRIES
          · simp only [hsvc, hrc, if_true]
            exact ih (rc + 1) _
          · simp [hsvc, hrc]

lemma generate_response_fs (env : CRSeq.Env) (f : Str) (qd : QData) (rc : Nat)
    (fs : CRSeq.FS) :
    ((CRSeq.generate_response env f qd rc fs).2.outputs = fs.outputs ∧
     (CRSeq.generate_response env f qd rc fs).2.cpFile = fs.cpFile ∧
     (CRSeq.generate_response env f qd rc fs).2.errLog = fs.errLog ∧
     (CRSeq.generate_response env f qd rc fs).2.clock = fs.clock) :=
  generate_response_go_fs env f qd _ rc fs

lemma process_file_skip (env : CRSeq.Env) {f : Str} {mem : List Str} (fs : CRSeq.FS)
    (h : f ∈ mem) :
    CRSeq.process_file_sequentially env f mem fs = .done .skipped fs [] := by
  simp [CRSeq.process_file_sequentially, h]

lemma process_file_not_skipped (env : CRSeq.Env) {f : Str} {mem : List Str} {fs : CRSeq.FS}
    (h : f ∉ mem) :
    ∀ st fs' tr, CRSeq.process_file_sequentially env f mem fs = .done st fs' tr →
      st ≠ .skipped := by
  intro st fs' tr heq
  simp only [CRSeq.process_file_sequentially, CRSeq.logErr, if_neg h] at heq
  split_ifs at heq <;> (cases heq; decide)

lemma process_file_effects (env : CRSeq.Env) (f : Str) (mem : List Str) (fs : CRSeq.FS) :
    (∀ st fs' tr, CRSeq.process_file_sequentially env f mem fs = .done st fs' tr →
       fs'.cpFile = fs.cpFile ∧
       (st = .skipped → fs' = fs ∧ tr = []) ∧
       (st = .processed → ∃ v, fs'.outputs = fs.outputs ++ [(CRSeq.outName f, v)]) ∧
       (st = .errored → fs'.outputs = fs.outputs ∧
          ∃ msg, fs'.errLog = fs.errLog ++ [⟨fs.clock, f, msg⟩]) ∧
       (∀ s ∈ tr, s.cpFile = fs.cpFile ∧ ∃ d, s.outputs = fs.outputs ++ d)) ∧
    (∀ fs' tr, CRSeq.process_file_sequentially env f mem fs = .raised fs' tr →
       fs'.cpFile = fs.cpFile ∧ fs'.outputs = fs.outputs ∧ tr = []) := by
  obtain ⟨hgo, hgc, hge, hgk⟩ := generate_response_fs env f (CRSeq.mkQData env f) 0 fs
  constructor
  · intro st fs' tr heq
    simp only [CRSeq.process_file_sequentially, CRSeq.logErr] at heq
    split_ifs at heq
    · -- skipped
      cases heq
      refine ⟨rfl, fun _ => ⟨rfl, rfl⟩, ?_, ?_, ?_⟩
      · intro hst; exact absurd hst (by decide)
      · intro hst; exact absurd hst (by decide)
      · intro s hs; exact absurd hs (List.not_mem_nil s)
    · -- error-dict result, error-log append succeeds
      cases heq
      refine ⟨by simp [CRSeq.appendLog, hgc], ?_, ?_, ?_, ?_⟩
      · intro hst; exact absurd hst (by decide)
      · intro hst; exact absurd hst (by decide)
      · intro _
        exact ⟨by simp [CRSeq.appendLog, hgo],
          errMsg (CRSeq.generate_response env f (CRSeq.mkQData env f) 0 fs).1,
          by simp [CRSeq.appendLog, hge, hgk]⟩
      · intro s hs
        simp only [List.nil_append, List.mem_singleton] at hs
        subst hs
        exact ⟨by simp [CRSeq.appendLog, hgc], [], by simp [CRSeq.appendLog, hgo]⟩
    · -- processed
      cases heq
      refine ⟨by simp [CRSeq.writeOut, hgc], ?_, ?_, ?_, ?_⟩
      · intro hst; exact absurd hst (by decide)
      · intro _
        exact ⟨(CRSeq.generate_response env f (CRSeq.mkQData env f) 0 fs).1,
          by simp [CRSeq.writeOut, hgo]⟩
      · intro hst; exact absurd hst (by decide)
      · intro s hs
        simp only [List.mem_singleton] at hs
        subst hs
        refine ⟨by simp [CRSeq.writeOut, hgc],
          [(CRSeq.outName f, (CRSeq.generate_response env f (CRSeq.mkQData env f) 0 fs).1)],
          by simp [CRSeq.writeOut, hgo]⟩
    · -- save_result raises, error-log append succeeds
      cases heq
      refine ⟨by simp [CRSeq.appendLog, hgc], ?_, ?_, ?_, ?_⟩
      · intro hst; exact absurd hst (by decide)
      · intro hst; exact absurd hst (by decide)
      · intro _
        exact ⟨by simp [CRSeq.appendLog, hgo], ("save_result failed".data),
          by simp [CRSeq.appendLog, hge, hgk]⟩
      · intro s hs
        simp only [List.nil_append, List.mem_singleton] at hs
        subst hs
        exact ⟨by simp [CRSeq.appendLog, hgc], [], by simp [CRSeq.appendLog, hgo]⟩
    · -- load raises, error-log append succeeds
      cases heq
      refine ⟨by simp [CRSeq.appendLog], ?_, ?_, ?_, ?_⟩
      · intro hst; exact absurd hst (by decide)
      · intro hst; exact absurd hst (by decide)
      · intro _
        exact ⟨by simp [CRSeq.appendLog], ("load_html_file failed".data),
          by simp [CRSeq.appendLog]⟩
      · intro s hs
        simp only [List.nil_append, List.mem_singleton] at hs
        subst hs
        exact ⟨by simp [CRSeq.appendLog], [], by simp [CRSeq.appendLog]⟩
  · intro fs' tr heq
    simp only [CRSeq.process_file_sequentially, CRSeq.logErr] at heq
    split_ifs at heq <;> (cases heq; first
      | exact ⟨hgc, hgo, rfl⟩
      | exact ⟨rfl, rfl, rfl⟩)

lemma cpInv_mono {fs s : CRSeq.FS} (h : CRSeq.cpInv fs) (hc : s.cpFile = fs.cpFile)
    (ho : ∃ d, s.outputs = fs.outputs ++ d) : CRSeq.cpInv s := by
  intro g hg
  rw [hc] at hg
  obtain ⟨d, hd⟩ := ho
  rw [hd, List.map_append]
  exact List.mem_append_left _ (h g hg)

lemma memCov_mono {mem : List Str} {fs s : CRSeq.FS} (h : CRSeq.memCov mem fs)
    (ho : ∃ d, s.outputs = fs.outputs ++ d) : CRSeq.memCov mem s := by
  intro g hg
  obtain ⟨d, hd⟩ := ho
  rw [hd, List.map_append]
  exact List.mem_append_left _ (h g hg)

lemma procOf_cons_processed (f : Str) (items : List (Str × Status)) :
    CRSeq.procOf ((f, Status.processed) :: items) = f :: CRSeq.procOf items := by
  simp [CRSeq.procOf]

lemma procOf_cons_other {st : Status} (f : Str) (items : List (Str × Status))
    (h : st ≠ Status.processed) :
    CRSeq.procOf ((f, st) :: items) = CRSeq.procOf items := by
  simp [CRSeq.procOf, List.filter_cons, h]

lemma status_of_mem (env : CRSeq.Env) {f : Str} {mem : List Str} {fs : CRSeq.FS}
    {st : Status} {fs1 : CRSeq.FS} {tr1 : List CRSeq.FS}
    (hpf : CRSeq.process_file_sequentially env f mem fs = .done st fs1 tr1)
    (hmem : f ∈ mem) : st = .skipped := by
  rw [process_file_skip env fs hmem] at hpf
  cases hpf
  rfl

lemma runItems_cons_eq (env : CRSeq.Env) (f : Str) (rest mem : List Str) (fs : CRSeq.FS)
    {st : Status} {fs1 : CRSeq.FS} {tr1 : List CRSeq.FS}
    (hpf : CRSeq.process_file_sequentially env f mem fs = .done st fs1 tr1)
    (mem2 : List Str) (fs2 : CRSeq.FS) (tr2 : List CRSeq.FS)
    (hnxt : (if st = Status.processed then
        (if env.saveCpOk f = true then
          (mem ++ [f], { fs1 with cpFile := CpFile.good (mem ++ [f]) },
            [{ fs1 with cpFile := CpFile.good (mem ++ [f]) }])
         else (mem ++ [f], fs1, ([] : List CRSeq.FS)))
       else (mem, fs1, ([] : List CRSeq.FS))) = (mem2, fs2, tr2)) :
    CRSeq.runItems env (f :: rest) mem fs =
      match CRSeq.runItems env rest mem2 fs2 with
      | .finished items memF fsF trF =>
          .finished ((f, st) :: items) memF fsF (tr1 ++ tr2 ++ trF)
      | .aborted items fsF trF =>
          .aborted ((f, st) :: items) fsF (tr1 ++ tr2 ++ trF) := by
  rw [CRSeq.runItems, hpf]
  simp only [hnxt]

lemma runItems_struct (env : CRSeq.Env) :
    ∀ (files mem : List Str) (fs : CRSeq.FS) (items : List (Str × Status))
      (memF : List Str) (fsF : CRSeq.FS) (tr : List CRSeq.FS),
      CRSeq.runItems env files mem fs = .finished items memF fsF tr →
      items.map Prod.fst = files ∧
      memF = mem ++ CRSeq.procOf items ∧
      (∀ p ∈ items, p.1 ∈ mem → p.2 = Status.skipped) ∧
      (∀ p ∈ items, p.2 ≠ Status.skipped → p.1 ∉ mem) ∧
      (∃ d, fsF.outputs = fs.outputs ++ d ∧
         d.map Prod.fst = (CRSeq.procOf items).map CRSeq.outName) ∧
      (∀ g ∈ cpRead fsF.cpFile, g ∈ cpRead fs.cpFile ∨ g ∈ memF) ∧
      ((∀ g, env.saveCpOk g = true) → cpRead fs.cpFile = mem → cpRead fsF.cpFile = memF) := by
  intro files
  induction files with
  | nil =>
      intro mem fs items memF fsF tr heq
      rw [CRSeq.runItems] at heq
      cases heq
      refine ⟨rfl, by simp [CRSeq.procOf], by simp, ?_, ⟨[], by simp, by simp [CRSeq.procOf]⟩,
        fun g hg => Or.inl hg, fun _ h => by simpa [CRSeq.procOf] using h⟩
      intro p hp
      exact absurd hp (List.not_mem_nil p)
  | cons f rest ih =>
      intro mem fs items memF fsF tr heq
      cases hpf : CRSeq.process_file_sequentially env f mem fs with
      | raised fs1 tr1 =>
          rw [CRSeq.runItems, hpf] at heq
          exact absurd heq (by simp)
      | done st fs1 tr1 =>
          obtain ⟨heff, hskf, hproc, herrf, -⟩ :=
            (process_file_effects env f mem fs).1 st fs1 tr1 hpf
          have houts : fs1.outputs = fs.outputs ∨
              ∃ v, fs1.outputs = fs.outputs ++ [(CRSeq.outName f, v)] := by
            cases st with
            | processed => exact Or.inr (hproc rfl)
            | errored => exact Or.inl (herrf rfl).1
            | skipped => exact Or.inl (by rw [(hskf rfl).1])
          by_cases hst : st = Status.processed
          · subst hst
            have hfnotmem : f ∉ mem := by
              intro hm
              cases status_of_mem env hpf hm
            by_cases hcp : env.saveCpOk f = true
            · rw [runItems_cons_eq env f rest mem fs hpf (mem ++ [f])
                  { fs1 with cpFile := CpFile.good (mem ++ [f]) }
                  [{ fs1 with cpFile := CpFile.good (mem ++ [f]) }]
                  (by rw [if_pos rfl, if_pos hcp])] at heq
              cases hrec : CRSeq.runItems env rest (mem ++ [f])
                  { fs1 with cpFile := CpFile.good (mem ++ [f]) } with
              | aborted i2 f2 t2 => rw [hrec] at heq; exact absurd heq (by simp)
              | finished items' memF' fsF' trF' =>
                  rw [hrec] at heq
                  cases heq
                  obtain ⟨hmap, hmemF, hskip, hnoskip, ⟨d, hd, hdmap⟩, hsub, hok⟩ :=
                    ih _ _ _ _ _ _ hrec
                  obtain ⟨v, hv⟩ := hproc rfl
                  refine ⟨by simp [hmap], ?_, ?_, ?_, ?_, ?_, ?_⟩
                  · rw [procOf_cons_processed, hmemF]
                    simp
                  · intro p hp hpm
                    rcases List.mem_cons.mp hp with rfl | hp'
                    · exact absurd hpm hfnotmem
                    · exact hskip p hp' (List.mem_append_left _ hpm)
                  · intro p hp hps
                    rcases List.mem_cons.mp hp with rfl | hp'
                    · exact hfnotmem
                    · intro hpm
                      exact hnoskip p hp' hps (List.mem_append_left _ hpm)
                  · refine ⟨(CRSeq.outName f, v) :: d, ?_, ?_⟩
                    · rw [hd]
                      simp only
                      rw [hv, List.append_assoc]
                      rfl
                    · rw [procOf_cons_processed]
                      simp [hdmap]
                  · intro g hg
                    rcases hsub g hg with hg' | hg'
                    · right
                      rw [hmemF]
                      exact List.mem_append_left _ (by simpa [cpRead] using hg')
                    · exact Or.inr hg'
                  · intro hokAll _
                    exact hok hokAll (by simp [cpRead])
            · rw [runItems_cons_eq env f rest mem fs hpf (mem ++ [f]) fs1 []
                  (by rw [if_pos rfl, if_neg hcp])] at heq
              cases hrec : CRSeq.runItems env rest (mem ++ [f]) fs1 with
              | aborted i2 f2 t2 => rw [hrec] at heq; exact absurd heq (by simp)
              | finished items' memF' fsF' trF' =>
                  rw [hrec] at heq
                  cases heq
                  obtain ⟨hmap, hmemF, hskip, hnoskip, ⟨d, hd, hdmap⟩, hsub, -⟩ :=
                    ih _ _ _ _ _ _ hrec
                  obtain ⟨v, hv⟩ := hproc rfl
                  refine ⟨by simp [hmap], ?_, ?_, ?_, ?_, ?_, ?_⟩
                  · rw [procOf_cons_processed, hmemF]
                    simp
                  · intro p hp hpm
                    rcases List.mem_cons.mp hp with rfl | hp'
                    · exact absurd hpm hfnotmem
                    · exact hskip p hp' (List.mem_append_left _ hpm)
                  · intro p hp hps
                    rcases List.mem_cons.mp hp with rfl | hp'
                    · exact hfnotmem
                    · intro hpm
                      exact hnoskip p hp' hps (List.mem_append_left _ hpm)
                  · refine ⟨(CRSeq.outName f, v) :: d, ?_, ?_⟩
                    · rw [hd, hv, List.append_assoc]
                      rfl
                    · rw [procOf_cons_processed]
                      simp [hdmap]
                  · intro g hg
                    rcases hsub g hg with hg' | hg'
                    · rw [heff] at hg'
                      exact Or.inl hg'
                    · exact Or.inr hg'
                  · intro hokAll _
                    exact absurd (hokAll f) hcp
          · rw [runItems_cons_eq env f rest mem fs hpf mem fs1 []
                  (by rw [if_neg hst])] at heq
            cases hrec : CRSeq.runItems env rest mem fs1 with
            | aborted i2 f2 t2 => rw [hrec] at heq; exact absurd heq (by simp)
            | finished items' memF' fsF' trF' =>
                rw [hrec] at heq
                cases heq
                obtain ⟨hmap, hmemF, hskip, hnoskip, ⟨d, hd, hdmap⟩, hsub, hok⟩ :=
                  ih _ _ _ _ _ _ hrec
                have houtseq : fs1.outputs = fs.outputs := by
                  cases st with
                  | processed => exact absurd rfl hst
                  | errored => exact (herrf rfl).1
                  | skipped => rw [(hskf rfl).1]
                refine ⟨by simp [hmap], ?_, ?_, ?_, ?_, ?_, ?_⟩
                · rw [procOf_cons_other f _ hst, hmemF]
                · intro p hp hpm
                  rcases List.mem_cons.mp hp with rfl | hp'
                  · exact status_of_mem env hpf hpm
                  · exact hskip p hp' hpm
                · intro p hp hps
                  rcases List.mem_cons.mp hp with rfl | hp'
                  · intro hpm
                    exact hps (status_of_mem env hpf hpm)
                  · exact hnoskip p hp' hps
                · exact ⟨d, by rw [hd, houtseq], by rw [procOf_cons_other f _ hst, hdmap]⟩
                · intro g hg
                  rcases hsub g hg with hg' | hg'
                  · rw [heff] at hg'
                    exact Or.inl hg'
                  · exact Or.inr hg'
                · intro hokAll hcp0
                  exact hok hokAll (by rw [heff, hcp0])

lemma runItems_cons_raised (env : CRSeq.Env) (f : Str) (rest mem : List Str)
    (fs : CRSeq.FS) {fs1 : CRSeq.FS} {tr1 : List CRSeq.FS}
    (hpf : CRSeq.process_file_sequentially env f mem fs = .raised fs1 tr1) :
    CRSeq.runItems env (f :: rest) mem fs = .aborted [] fs1 tr1 := by
  rw [CRSeq.runItems, hpf]

lemma runItems_inv (env : CRSeq.Env) :
    ∀ (files mem : List Str) (fs : CRSeq.FS),
      CRSeq.cpInv fs → CRSeq.memCov mem fs →
      (∀ s ∈ (CRSeq.runItems env files mem fs).trace, CRSeq.cpInv s) ∧
      CRSeq.cpInv (CRSeq.runItems env files mem fs).endFs ∧
      (∀ items memF fsF tr, CRSeq.runItems env files mem fs = .finished items memF fsF tr →
         CRSeq.memCov memF fsF) := by
  intro files
  induction files with
  | nil =>
      intro mem fs hInv hMem
      rw [CRSeq.runItems]
      refine ⟨fun s hs => absurd hs (List.not_mem_nil s), hInv, ?_⟩
      intro items memF fsF tr heq
      cases heq
      exact hMem
  | cons f rest ih =>
      intro mem fs hInv hMem
      cases hpf : CRSeq.process_file_sequentially env f mem fs with
      | raised fs1 tr1 =>
          obtain ⟨heff, houts, htr⟩ := (process_file_effects env f mem fs).2 fs1 tr1 hpf
          rw [runItems_cons_raised env f rest mem fs hpf]
          subst htr
          refine ⟨fun s hs => absurd hs (List.not_mem_nil s), ?_, ?_⟩
          · exact cpInv_mono hInv (by simp [CRSeq.RunOut.endFs, heff])
              ⟨[], by simp [CRSeq.RunOut.endFs, houts]⟩
          · intro items memF fsF tr heq
            exact absurd heq (by simp)
      | done st fs1 tr1 =>
          obtain ⟨heff, hskf, hproc, herrf, htr1⟩ :=
            (process_file_effects env f mem fs).1 st fs1 tr1 hpf
          have houts : ∃ d, fs1.outputs = fs.outputs ++ d := by
            cases st with
            | processed => obtain ⟨v, hv⟩ := hproc rfl; exact ⟨_, hv⟩
            | errored => exact ⟨[], by simp [(herrf rfl).1]⟩
            | skipped => exact ⟨[], by simp [(hskf rfl).1]⟩
          have hInv1 : CRSeq.cpInv fs1 := cpInv_mono hInv heff houts
          have hMem1 : CRSeq.memCov mem fs1 := memCov_mono hMem houts
          have htr1' : ∀ s ∈ tr1, CRSeq.cpInv s := by
            intro s hs
            obtain ⟨hc, hd⟩ := htr1 s hs
            exact cpInv_mono hInv hc hd
          by_cases hst : st = Status.processed
          · subst hst
            obtain ⟨v, hv⟩ := hproc rfl
            have hMemf : CRSeq.memCov (mem ++ [f]) fs1 := by
              intro g hg
              rcases List.mem_append.mp hg with hg' | hg'
              · exact hMem1 g hg'
              · rw [List.mem_singleton] at hg'
                subst hg'
                rw [hv, List.map_append]
                exact List.mem_append_right _ (by simp)
            by_cases hcp : env.saveCpOk f = true
            · rw [runItems_cons_eq env f rest mem fs hpf (mem ++ [f])
                  { fs1 with cpFile := CpFile.good (mem ++ [f]) }
                  [{ fs1 with cpFile := CpFile.good (mem ++ [f]) }]
                  (by rw [if_pos rfl, if_pos hcp])]
              have hInv2 : CRSeq.cpInv { fs1 with cpFile := CpFile.good (mem ++ [f]) } := by
                intro g hg
                exact hMemf g (by simpa [cpRead] using hg)
              have hMem2 : CRSeq.memCov (mem ++ [f])
                  { fs1 with cpFile := CpFile.good (mem ++ [f]) } := hMemf
              obtain ⟨ihtr, ihend, ihmem⟩ := ih (mem ++ [f]) _ hInv2 hMem2
              cases hrec : CRSeq.runItems env rest (mem ++ [f])
                  { fs1 with cpFile := CpFile.good (mem ++ [f]) } with
              | finished items' memF' fsF' trF' =>
                  rw [hrec] at ihtr ihend
                  refine ⟨?_, by simpa [CRSeq.RunOut.endFs] using ihend, ?_⟩
                  · intro s hs
                    simp only [CRSeq.RunOut.trace] at hs ⊢
                    rcases List.mem_append.mp hs with hs' | hs'
                    · rcases List.mem_append.mp hs' with hs'' | hs''
                      · exact htr1' s hs''
                      · rw [List.mem_singleton] at hs''
                        subst hs''
                        exact hInv2
                    · exact ihtr s (by simpa [CRSeq.RunOut.trace] using hs')
                  · intro items memF fsF tr heq
                    cases heq
                    exact ihmem _ _ _ _ hrec
              | aborted items' fsF' trF' =>
                  rw [hrec] at ihtr ihend
                  refine ⟨?_, by simpa [CRSeq.RunOut.endFs] using ihend, ?_⟩
                  · intro s hs
                    simp only [CRSeq.RunOut.trace] at hs ⊢
                    rcases List.mem_append.mp hs with hs' | hs'
                    · rcases List.mem_append.mp hs' with hs'' | hs''
                      · exact htr1' s hs''
                      · rw [List.mem_singleton] at hs''
                        subst hs''
                        exact hInv2
                    · exact ihtr s (by simpa [CRSeq.RunOut.trace] using hs')
                  · intro items memF fsF tr heq
                    exact absurd heq (by simp)
            · rw [runItems_cons_eq env f rest mem fs hpf (mem ++ [f]) fs1 []
                  (by rw [if_pos rfl, if_neg hcp])]
              obtain ⟨ihtr, ihend, ihmem⟩ := ih (mem ++ [f]) fs1 hInv1 hMemf
              cases hrec : CRSeq.runItems env rest (mem ++ [f]) fs1 with
              | finished items' memF' fsF' trF' =>
                  rw [hrec] at ihtr ihend
                  refine ⟨?_, by simpa [CRSeq.RunOut.endFs] using ihend, ?_⟩
                  · intro s hs
                    simp only [CRSeq.RunOut.trace] at hs ⊢
                    rcases List.mem_append.mp hs with hs' | hs'
                    · rcases List.mem_append.mp hs' with hs'' | hs''
                      · exact htr1' s hs''
                      · exact absurd hs'' (List.not_mem_nil s)
                    · exact ihtr s (by simpa [CRSeq.RunOut.trace] using hs')
                  · intro items memF fsF tr heq
                    cases heq
                    exact ihmem _ _ _ _ hrec
              | aborted items' fsF' trF' =>
                  rw [hrec] at ihtr ihend
                  refine ⟨?_, by simpa [CRSeq.RunOut.endFs] using ihend, ?_⟩
                  · intro s hs
                    simp only [CRSeq.RunOut.trace] at hs ⊢
                    rcases List.mem_append.mp hs with hs' | hs'
                    · rcases List.mem_append.mp hs' with hs'' | hs''
                      · exact htr1' s hs''
                      · exact absurd hs'' (List.not_mem_nil s)
                    · exact ihtr s (by simpa [CRSeq.RunOut.trace] using hs')
                  · intro items memF fsF tr heq
                    exact absurd heq (by simp)
          · rw [runItems_cons_eq env f rest mem fs hpf mem fs1 [] (by rw [if_neg hst])]
            obtain ⟨ihtr, ihend, ihmem⟩ := ih mem fs1 hInv1 hMem1
            cases hrec : CRSeq.runItems env rest mem fs1 with
            | finished items' memF' fsF' trF' =>
                rw [hrec] at ihtr ihend
                refine ⟨?_, by simpa [CRSeq.RunOut.endFs] using ihend, ?_⟩
                · intro s hs
                  simp only [CRSeq.RunOut.trace] at hs ⊢
                  rcases List.mem_append.mp hs with hs' | hs'
                  · rcases List.mem_append.mp hs' with hs'' | hs''
                    · exact htr1' s hs''
                    · exact absurd hs'' (List.not_mem_nil s)
                  · exact ihtr s (by simpa [CRSeq.RunOut.trace] using hs')
                · intro items memF fsF tr heq
                  cases heq
                  exact ihmem _ _ _ _ hrec
            | aborted items' fsF' trF' =>
                rw [hrec] at ihtr ihend
                refine ⟨?_, by simpa [CRSeq.RunOut.endFs] using ihend, ?_⟩
                · intro s hs
                  simp only [CRSeq.RunOut.trace] at hs ⊢
                  rcases List.mem_append.mp hs with hs' | hs'
                  · rcases List.mem_append.mp hs' with hs'' | hs''
                    · exact htr1' s hs''
                    · exact absurd hs'' (List.not_mem_nil s)
                  · exact ihtr s (by simpa [CRSeq.RunOut.trace] using hs')
                · intro items memF fsF tr heq
                  exact absurd heq (by simp)

lemma process_file_done_of_logOk (env : CRSeq.Env) (f : Str) (mem : List Str)
    (fs : CRSeq.FS) (h : env.errorLogOk f = true) :
    ∃ st fs' tr, CRSeq.process_file_sequentially env f mem fs = .done st fs' tr := by
  simp only [CRSeq.process_file_sequentially, CRSeq.logErr]
  split_ifs <;> exact ⟨_, _, _, rfl⟩

lemma runItems_finished_of_logOk (env : CRSeq.Env) (h : ∀ g, env.errorLogOk g = true) :
    ∀ (files mem : List Str) (fs : CRSeq.FS),
      (CRSeq.runItems env files mem fs).isFinished = true := by
  intro files
  induction files with
  | nil =>
      intro mem fs
      rw [CRSeq.runItems]
      rfl
  | cons f rest ih =>
      intro mem fs
      obtain ⟨st, fs1, tr1, hpf⟩ := process_file_done_of_logOk env f mem fs (h f)
      by_cases hst : st = Status.processed
      · subst hst
        by_cases hcp : env.saveCpOk f = true
        · rw [runItems_cons_eq env f rest mem fs hpf (mem ++ [f])
              { fs1 with cpFile := CpFile.good (mem ++ [f]) }
              [{ fs1 with cpFile := CpFile.good (mem ++ [f]) }]
              (by rw [if_pos rfl, if_pos hcp])]
          cases hrec : CRSeq.runItems env rest (mem ++ [f])
              { fs1 with cpFile := CpFile.good (mem ++ [f]) } with
          | finished items' memF' fsF' trF' => rfl
          | aborted items' fsF' trF' =>
              have := ih (mem ++ [f]) { fs1 with cpFile := CpFile.good (mem ++ [f]) }
              rw [hrec] at this
              exact absurd this (by simp [CRSeq.RunOut.isFinished])
        · rw [runItems_cons_eq env f rest mem fs hpf (mem ++ [f]) fs1 []
              (by rw [if_pos rfl, if_neg hcp])]
          cases hrec : CRSeq.runItems env rest (mem ++ [f]) fs1 with
          | finished items' memF' fsF' trF' => rfl
          | aborted items' fsF' trF' =>
              have := ih (mem ++ [f]) fs1
              rw [hrec] at this
              exact absurd this (by simp [CRSeq.RunOut.isFinished])
      · rw [runItems_cons_eq env f rest mem fs hpf mem fs1 [] (by rw [if_neg hst])]
        cases hrec : CRSeq.runItems env rest mem fs1 with
        | finished items' memF' fsF' trF' => rfl
        | aborted items' fsF' trF' =>
            have := ih mem fs1
            rw [hrec] at this
            exact absurd this (by simp [CRSeq.RunOut.isFinished])

lemma generate_response_allfail (env : CRSeq.Env) (f : Str) (qd : QData)
    (fs : CRSeq.FS) (m : Nat → Str)
    (h0 : env.svc f 0 = .exc (m 0)) (h1 : env.svc f 1 = .exc (m 1))
    (h2 : env.svc f 2 = .exc (m 2)) (h3 : env.svc f 3 = .exc (m 3)) :
    CRSeq.generate_response env f qd 0 fs =
      (errObj ("API request failed after 3 retries: ".data ++ m 3),
       { fs with svcCalls := fs.svcCalls ++ [(f, 0), (f, 1), (f, 2), (f, 3)] }) := by
  show CRSeq.generate_response_go env f qd 3 0 fs = _
  rw [CRSeq.generate_response_go, h0]
  show CRSeq.generate_response_go env f qd 2 1 _ = _
  rw [CRSeq.generate_response_go, h1]
  show CRSeq.generate_response_go env f qd 1 2 _ = _
  rw [CRSeq.generate_response_go, h2]
  show CRSeq.generate_response_go env f qd 0 3 _ = _
  rw [CRSeq.generate_response_go, h3]
  show (errObj _, _) = _
  simp

/-- Claim C2 (amended): the retry budget is exhausted only after *four*
failed service calls — the initial attempt plus `MAX_RETRIES = 3` retries
(three failures alone do not exhaust it; see the counterexample).  When all
four attempts fail, the item ends `"error"`: exactly one line carrying a
timestamp and the item's identifier is appended to the error log, no
output file is written, the checkpoint file is untouched, and the run
proceeds to the remaining items. -/
theorem claim2_retry_budget_exhaustion (env : CRSeq.Env) (f : Str)
    (mem rest : List Str) (fs : CRSeq.FS) (m : Nat → Str)
    (hmem : f ∉ mem) (hload : env.loadOk f = true) (hlog : env.errorLogOk f = true)
    (h0 : env.svc f 0 = .exc (m 0)) (h1 : env.svc f 1 = .exc (m 1))
    (h2 : env.svc f 2 = .exc (m 2)) (h3 : env.svc f 3 = .exc (m 3)) :
    ∃ fs', CRSeq.process_file_sequentially env f mem fs = .done .errored fs' [fs'] ∧
      fs'.outputs = fs.outputs ∧
      fs'.cpFile = fs.cpFile ∧
      fs'.errLog = fs.errLog ++
        [⟨fs.clock, f, "API request failed after 3 retries: ".data ++ m 3⟩] ∧
      fs'.svcCalls = fs.svcCalls ++ [(f, 0), (f, 1), (f, 2), (f, 3)] ∧
      (CRSeq.runItems env (f :: rest) mem fs).items =
        (f, Status.errored) :: (CRSeq.runItems env rest mem fs').items ∧
      (CRSeq.runItems env (f :: rest) mem fs).isFinished =
        (CRSeq.runItems env rest mem fs').isFinished := by
  have hgen := generate_response_allfail env f (CRSeq.mkQData env f) fs m h0 h1 h2 h3
  have hpf : CRSeq.process_file_sequentially env f mem fs = .done .errored
      { fs with
        svcCalls := fs.svcCalls ++ [(f, 0), (f, 1), (f, 2), (f, 3)],
        errLog := fs.errLog ++
          [⟨fs.clock, f, "API request failed after 3 retries: ".data ++ m 3⟩],
        clock := fs.clock + 1 }
      [{ fs with
         svcCalls := fs.svcCalls ++ [(f, 0), (f, 1), (f, 2), (f, 3)],
         errLog := fs.errLog ++
           [⟨fs.clock, f, "API request failed after 3 retries: ".data ++ m 3⟩],
         clock := fs.clock + 1 }] := by
    simp only [CRSeq.process_file_sequentially, CRSeq.logErr, hgen]
    rw [if_neg hmem, if_pos hload]
    rw [if_pos (show hasKey (errObj ("API request failed after 3 retries: ".data ++ m 3))
        ("error".data) = true from rfl)]
    rw [if_pos hlog]
    rfl
  refine ⟨_, hpf, rfl, rfl, rfl, rfl, ?_, ?_⟩
  · rw [runItems_cons_eq env f rest mem fs hpf _ _ _ (by rw [if_neg (by decide)])]
    cases hrec : CRSeq.runItems env rest mem _ with
    | finished items' memF' fsF' trF' => simp [CRSeq.RunOut.items]
    | aborted items' fsF' trF' => simp [CRSeq.RunOut.items]
  · rw [runItems_cons_eq env f rest mem fs hpf _ _ _ (by rw [if_neg (by decide)])]
    cases hrec : CRSeq.runItems env rest mem _ with
    | finished items' memF' fsF' trF' => simp [CRSeq.RunOut.isFinished]
    | aborted items' fsF' trF' => simp [CRSeq.RunOut.isFinished]

/-- Claim C2 counterexample: after exactly three failed service calls the
retry budget is *not* exhausted — the guard `retry_count < MAX_RETRIES`
grants a fourth attempt, and with `envFail3` (three failures, then a good
response) the item ends `"processed"` with an empty error log and four
recorded service calls. -/
theorem claim2_counterexample :
    (CRSeq.process_file_sequentially envFail3 ("cr_9.html".data) []
        fsEmptySeq).statusOf = some Status.processed ∧
    ((CRSeq.process_file_sequentially envFail3 ("cr_9.html".data) []
        fsEmptySeq).endFs).errLog = [] ∧
    ((CRSeq.process_file_sequentially envFail3 ("cr_9.html".data) []
        fsEmptySeq).endFs).svcCalls.length = 4 := by
  refine ⟨rfl, rfl, rfl⟩

theorem claim2_witness :
    ∃ fs', CRSeq.process_file_sequentially envFail4 ("cr_9.html".data) []
        fsEmptySeq = .done .errored fs' [fs'] ∧
      fs'.outputs = fsEmptySeq.outputs ∧
      fs'.cpFile = fsEmptySeq.cpFile ∧
      fs'.errLog = fsEmptySeq.errLog ++
        [⟨fsEmptySeq.clock, ("cr_9.html").data,
          "API request failed after 3 retries: ".data ++ "t".data⟩] ∧
      fs'.svcCalls = fsEmptySeq.svcCalls ++
        [(("cr_9.html").data, 0), (("cr_9.html").data, 1),
         (("cr_9.html").data, 2), (("cr_9.html").data, 3)] ∧
      (CRSeq.runItems envFail4 [("cr_9.html").data] [] fsEmptySeq).items =
        (("cr_9.html").data, Status.errored) ::
          (CRSeq.runItems envFail4 [] [] fs').items ∧
      (CRSeq.runItems envFail4 [("cr_9.html").data] [] fsEmptySeq).isFinished =
        (CRSeq.runItems envFail4 [] [] fs').isFinished :=
  claim2_retry_budget_exhaustion envFail4 ("cr_9.html").data [] [] fsEmptySeq
    (fun _ => "t".data) (by simp) rfl rfl rfl rfl rfl rfl

/-- Claim C6 (amended): per-item isolation holds only as long as the
error-log appends themselves succeed.  Under that condition the run loop
is total: from any starting state it always finishes, and every listed
file receives a terminal status.  (When an error-log append raises, the
exception escapes the per-item handler and aborts the run — see the
counterexample.) -/
theorem claim6_per_item_isolation (env : CRSeq.Env)
    (hlog : ∀ g, env.errorLogOk g = true)
    (files mem : List Str) (fs : CRSeq.FS) :
    (CRSeq.runItems env files mem fs).isFinished = true ∧
    (CRSeq.runItems env files mem fs).items.map Prod.fst = files := by
  have hfin := runItems_finished_of_logOk env hlog files mem fs
  refine ⟨hfin, ?_⟩
  cases hrec : CRSeq.runItems env files mem fs with
  | finished items memF fsF tr =>
      exact (runItems_struct env files mem fs items memF fsF tr hrec).1
  | aborted items fsF tr =>
      rw [hrec] at hfin
      exact absurd hfin (by simp [CRSeq.RunOut.isFinished])

/-- Claim C6 counterexample: with `envLogBroken` (loading `a.html` raises
and the error-log append raises too, modelling an unwritable log file)
the run aborts on the first item — `b.html` is never attempted and no
item receives a status. -/
theorem claim6_counterexample :
    (CRSeq.runItems envLogBroken ["a.html".data, "b.html".data] []
        fsEmptySeq).isFinished = false ∧
    (CRSeq.runItems envLogBroken ["a.html".data, "b.html".data] []
        fsEmptySeq).items = [] := by
  refine ⟨rfl, rfl⟩

theorem claim6_witness :
    (∀ g, envLogOkLoadFail.errorLogOk g = true) ∧
    ((CRSeq.runItems envLogOkLoadFail ["a.html".data, "b.html".data] []
        fsEmptySeq).isFinished = true ∧
     (CRSeq.runItems envLogOkLoadFail ["a.html".data, "b.html".data] []
        fsEmptySeq).items.map Prod.fst = ["a.html".data, "b.html".data]) :=
  ⟨fun _ => rfl,
   claim6_per_item_isolation envLogOkLoadFail (fun _ => rfl)
     ["a.html".data, "b.html".data] [] fsEmptySeq⟩

lemma runItems_all_skip (env : CRSeq.Env) (mem : List Str) (fs : CRSeq.FS) :
    ∀ files, (∀ g ∈ files, g ∈ mem) →
      CRSeq.runItems env files mem fs =
        .finished (files.map fun g => (g, Status.skipped)) mem fs [] := by
  intro files
  induction files with
  | nil => intro _; rw [CRSeq.runItems]; rfl
  | cons g rest ih =>
      intro hall
      have hg : g ∈ mem := hall g (List.mem_cons_self g rest)
      have hpf := process_file_skip env fs hg
      rw [runItems_cons_eq env g rest mem fs hpf mem fs [] (by rw [if_neg (by decide)])]
      rw [ih (fun x hx => hall x (List.mem_cons_of_mem g hx))]
      rfl

/-- Claim C5: idempotence of skip.  An identifier already in the
in-memory processed list (loaded from the checkpoint at run start) is
reported `"skipped"` directly, with the disk returned *identical* to the
input — no output write, no checkpoint write, no error-log line, and no
service call (the `svcCalls` ledger is part of the unchanged state).
Consequently a run over files that are all already processed leaves the
disk untouched, and the full driver does likewise when every selected
file is in the checkpoint. -/
theorem claim5_skip_idempotence (env : CRSeq.Env) (mem : List Str) (fs : CRSeq.FS) :
    (∀ f ∈ mem,
       CRSeq.process_file_sequentially env f mem fs = .done .skipped fs []) ∧
    (∀ files, (∀ g ∈ files, g ∈ mem) →
       CRSeq.runItems env files mem fs =
         .finished (files.map fun g => (g, Status.skipped)) mem fs []) ∧
    (∀ sI eI lim tm,
       (∀ g ∈ CRSeq.applyFilters (sortStr env.files) sI eI lim tm,
          g ∈ cpRead fs.cpFile) →
       CRSeq.process_all_files_sequentially env sI eI lim tm fs =
         .finished
           ((CRSeq.applyFilters (sortStr env.files) sI eI lim tm).map
             fun g => (g, Status.skipped))
           (cpRead fs.cpFile) fs []) := by
  refine ⟨fun f hf => process_file_skip env fs hf,
    runItems_all_skip env mem fs, ?_⟩
  intro sI eI lim tm hall
  simp only [CRSeq.process_all_files_sequentially]
  exact runItems_all_skip env (cpRead fs.cpFile) fs _ hall

theorem claim5_witness :
    CRSeq.process_file_sequentially envSeqOk ("cr_1.html".data)
        ["cr_1.html".data] fsEmptySeq = .done .skipped fsEmptySeq [] ∧
    CRSeq.runItems envSeqOk ["cr_1.html".data] ["cr_1.html".data] fsEmptySeq =
      .finished [(("cr_1.html").data, Status.skipped)] ["cr_1.html".data]
        fsEmptySeq [] := by
  obtain ⟨h1, h2, h3⟩ :=
    claim5_skip_idempotence envSeqOk ["cr_1.html".data] fsEmptySeq
  exact ⟨h1 ("cr_1.html").data (by simp), h2 ["cr_1.html".data] (by simp)⟩

lemma nodup_fst_eq (l : List (Str × Status)) (hn : (l.map Prod.fst).Nodup)
    {p q : Str × Status} (hp : p ∈ l) (hq : q ∈ l) (hfst : p.1 = q.1) : p = q := by
  induction l with
  | nil => cases hp
  | cons a t ih =>
      simp only [List.map_cons, List.nodup_cons] at hn
      cases hp with
      | head =>
          cases hq with
          | head => rfl
          | tail _ hq' =>
              exact absurd (by rw [hfst]; exact List.mem_map_of_mem Prod.fst hq') hn.1
      | tail _ hp' =>
          cases hq with
          | head =>
              exact absurd (by rw [← hfst]; exact List.mem_map_of_mem Prod.fst hp') hn.1
          | tail _ hq' => exact ih hn.2 hp' hq'

lemma errored_not_procOf {items : List (Str × Status)}
    (hn : (items.map Prod.fst).Nodup) {f : Str}
    (hf : (f, Status.errored) ∈ items) : f ∉ CRSeq.procOf items := by
  intro hmem
  simp only [CRSeq.procOf, List.mem_map, List.mem_filter] at hmem
  obtain ⟨p, ⟨hpi, hps⟩, hpf⟩ := hmem
  have hpe : (f, Status.errored) = p :=
    nodup_fst_eq items hn hf hpi (by simpa using hpf.symm)
  rw [← hpe] at hps
  simp at hps

/-- Claim C10: an item whose processing ends `"errored"` is never appended
to the checkpoint — it is absent from the final in-memory processed list
and (if it was not already recorded) from the final checkpoint file — and
a later invocation that resumes from that state does not skip it: its next
`process_file_sequentially` outcome is never `"skipped"`. -/
theorem claim10_errored_not_checkpointed (env : CRSeq.Env)
    (files mem : List Str) (fs : CRSeq.FS) (f : Str)
    (items : List (Str × Status)) (memF : List Str) (fsF : CRSeq.FS)
    (tr : List CRSeq.FS)
    (hrun : CRSeq.runItems env files mem fs = .finished items memF fsF tr)
    (hnodup : files.Nodup)
    (hf : (f, Status.errored) ∈ items)
    (hcp0 : f ∉ cpRead fs.cpFile) :
    f ∉ memF ∧
    f ∉ cpRead fsF.cpFile ∧
    (∀ st fs' tr', CRSeq.process_file_sequentially env f memF fsF = .done st fs' tr' →
       st ≠ .skipped) := by
  obtain ⟨hmap, hmem, _, hnsk, _, hsub, _⟩ :=
    runItems_struct env files mem fs items memF fsF tr hrun
  have hnodup' : (items.map Prod.fst).Nodup := by rw [hmap]; exact hnodup
  have hfm : f ∉ mem := hnsk (f, .errored) hf (by simp)
  have hfp : f ∉ CRSeq.procOf items := errored_not_procOf hnodup' hf
  have hfmemF : f ∉ memF := by
    rw [hmem]
    intro h
    rcases List.mem_append.mp h with h | h
    · exact hfm h
    · exact hfp h
  refine ⟨hfmemF, ?_, process_file_not_skipped env hfmemF⟩
  intro h
  rcases hsub f h with h | h
  · exact hcp0 h
  · exact hfmemF h

theorem claim10_witness :
    ("cr_9.html").data ∉ ([] : List Str) ∧
    ("cr_9.html").data ∉ cpRead fsFail4End.cpFile ∧
    (∀ st fs' tr', CRSeq.process_file_sequentially envFail4 ("cr_9.html").data
        [] fsFail4End = .done st fs' tr' → st ≠ .skipped) :=
  claim10_errored_not_checkpointed envFail4 [("cr_9.html").data] [] fsEmptySeq
    ("cr_9.html").data [(("cr_9.html").data, Status.errored)] [] fsFail4End
    [fsFail4End] rfl (by simp) (by simp) (List.not_mem_nil _)

/-- Claim C1: resume invariant.  If the starting disk satisfies the
invariant (every checkpointed identifier has its output file) and the
in-memory processed list is covered by outputs, then (a) every
intermediate disk snapshot of the run — i.e. the disk seen if the process
is killed at any point — satisfies the invariant, because the output file
is written before the checkpoint is appended; (b) the final disk satisfies
it; and (c) in a finished run the final processed list is covered, and
when every checkpoint write succeeds and the in-memory list was loaded
from the checkpoint, the final checkpoint file holds exactly the final
processed list, and each item recorded `"processed"` has both its
identifier in the checkpoint file and its output file on disk (so for
run-processed items, checkpointed iff output exists). -/
theorem claim1_resume_invariant (env : CRSeq.Env) (files mem : List Str)
    (fs : CRSeq.FS)
    (hInv : CRSeq.cpInv fs) (hMem : CRSeq.memCov mem fs) :
    (∀ s ∈ (CRSeq.runItems env files mem fs).trace, CRSeq.cpInv s) ∧
    CRSeq.cpInv (CRSeq.runItems env files mem fs).endFs ∧
    (∀ items memF fsF tr,
       CRSeq.runItems env files mem fs = .finished items memF fsF tr →
       CRSeq.memCov memF fsF ∧
       ((∀ g, env.saveCpOk g = true) → cpRead fs.cpFile = mem →
          (∀ f', f' ∈ cpRead fsF.cpFile ↔ f' ∈ memF) ∧
          ∀ p ∈ items, p.2 = Status.processed →
            p.1 ∈ cpRead fsF.cpFile ∧
            CRSeq.outName p.1 ∈ fsF.outputs.map Prod.fst)) := by
  obtain ⟨htr, hend, hcov⟩ := runItems_inv env files mem fs hInv hMem
  refine ⟨htr, hend, ?_⟩
  intro items memF fsF tr heq
  have hmc : CRSeq.memCov memF fsF := hcov items memF fsF tr heq
  refine ⟨hmc, ?_⟩
  intro hok hcp0
  obtain ⟨hmap, hmemF, _, _, _, hsub, hallok⟩ :=
    runItems_struct env files mem fs items memF fsF tr heq
  have hcpF : cpRead fsF.cpFile = memF := hallok hok hcp0
  refine ⟨fun f' => by rw [hcpF], ?_⟩
  intro p hp hst
  have hmemb : p.1 ∈ memF := by
    rw [hmemF]
    refine List.mem_append.mpr (Or.inr ?_)
    exact List.mem_map.mpr ⟨p, List.mem_filter.mpr ⟨hp, by simp [hst]⟩, rfl⟩
  exact ⟨by rw [hcpF]; exact hmemb, hmc p.1 hmemb⟩

theorem claim1_witness :
    (∀ s ∈ (CRSeq.runItems envSeqOk ["cr_1.html".data] [] fsEmptySeq).trace,
       CRSeq.cpInv s) ∧
    CRSeq.cpInv (CRSeq.runItems envSeqOk ["cr_1.html".data] [] fsEmptySeq).endFs ∧
    (∀ items memF fsF tr,
       CRSeq.runItems envSeqOk ["cr_1.html".data] [] fsEmptySeq =
         .finished items memF fsF tr →
       CRSeq.memCov memF fsF ∧
       ((∀ g, envSeqOk.saveCpOk g = true) → cpRead fsEmptySeq.cpFile = [] →
          (∀ f', f' ∈ cpRead fsF.cpFile ↔ f' ∈ memF) ∧
          ∀ p ∈ items, p.2 = Status.processed →
            p.1 ∈ cpRead fsF.cpFile ∧
            CRSeq.outName p.1 ∈ fsF.outputs.map Prod.fst)) :=
  claim1_resume_invariant envSeqOk ["cr_1.html".data] [] fsEmptySeq
    (fun f hf => absurd hf (List.not_mem_nil f))
    (fun f hf => absurd hf (List.not_mem_nil f))

lemma ep_process_one_allok (env : ExamPacks.Env) (f : Str) (mem : List Str)
    (fs : ExamPacks.FS) (t : Str)
    (hl : env.loadOk f = true) (hs : env.svc f 0 = .resp t)
    (hr : env.saveResultOk f = true) (hc : env.saveCpOk f = true) :
    ∃ r, ExamPacks.process_one env f mem fs = .ok r (mem ++ [f])
      { fs with
        outputs := fs.outputs ++ [(ExamPacks.outName (ExamPacks.mkQData env f), r)],
        cpFile := CpFile.good (mem ++ [f]) } := by
  refine ⟨Json.obj
    [("question_number".data, Json.str (ExamPacks.mkQData env f).question_number),
     ("source_url".data, Json.str (ExamPacks.mkQData env f).source_url),
     ("metadata".data, Json.obj (metaJson (ExamPacks.mkQData env f).metadata)),
     ("analysis".data, ExamPacks.handle_response t (ExamPacks.mkQData env f))], ?_⟩
  simp only [ExamPacks.process_one, ExamPacks.generate_response, hl, if_true]
  rw [ExamPacks.generate_response_go, hs]
  simp [hr, hc]

lemma ep_runBatchItems_allok (env : ExamPacks.Env)
    (hl : ∀ f, env.loadOk f = true) (hsv : ∀ f, ∃ t, env.svc f 0 = .resp t)
    (hr : ∀ f, env.saveResultOk f = true) (hc : ∀ f, env.saveCpOk f = true) :
    ∀ (batch mem : List Str) (fs : ExamPacks.FS),
      ∃ rs : List Json, rs.length = batch.length ∧
        ExamPacks.runBatchItems env batch mem fs = .ok rs (mem ++ batch)
          { fs with
            outputs := fs.outputs ++
              List.zipWith (fun g r => (ExamPacks.outName (ExamPacks.mkQData env g), r))
                batch rs,
            cpFile := if batch = [] then fs.cpFile
                      else CpFile.good (mem ++ batch) } := by
  intro batch
  induction batch with
  | nil =>
      intro mem fs
      refine ⟨[], rfl, ?_⟩
      rw [ExamPacks.runBatchItems]
      simp
  | cons f rest ih =>
      intro mem fs
      obtain ⟨t, hst⟩ := hsv f
      obtain ⟨r, hpo⟩ := ep_process_one_allok env f mem fs t (hl f) hst (hr f) (hc f)
      obtain ⟨rs, hlen, hrec⟩ := ih (mem ++ [f])
        { fs with
          outputs := fs.outputs ++ [(ExamPacks.outName (ExamPacks.mkQData env f), r)],
          cpFile := CpFile.good (mem ++ [f]) }
      refine ⟨r :: rs, by simp [hlen], ?_⟩
      rw [ExamPacks.runBatchItems, hpo]
      simp only [hrec]
      by_cases hrest : rest = []
      · subst hrest
        simp
      · simp [hrest]

lemma chunksAux_nil {α : Type} (n : Nat) : ∀ k, ExamPacks.chunksAux k n ([] : List α) = [] := by
  intro k
  cases k <;> simp [ExamPacks.chunksAux]

lemma chunks_of_le {α : Type} (n : Nat) (a : α) (t : List α)
    (hle : (a :: t).length ≤ n) :
    ExamPacks.chunks n (a :: t) = [a :: t] := by
  show ExamPacks.chunksAux (t.length + 1) n (a :: t) = [a :: t]
  rw [ExamPacks.chunksAux]
  simp only [List.isEmpty_cons, Bool.false_eq_true, if_false,
    List.take_of_length_le hle, List.drop_eq_nil_of_le hle]
  rw [chunksAux_nil]

lemma map_fst_zipWith {α β γ : Type} (h : α → γ) :
    ∀ (l : List α) (rs : List β), rs.length = l.length →
      (List.zipWith (fun f r => (h f, r)) l rs).map Prod.fst = l.map h := by
  intro l
  induction l with
  | nil => intro rs _; simp
  | cons f tl ih =>
      intro rs hlen
      cases rs with
      | nil => simp at hlen
      | cons r rt => simp [ih rt (by simpa using hlen)]

/-- Claim C7: the 10-files/limit-5 scenario on the exam-pack driver.  With
an empty checkpoint, an empty output directory, no aggregate file, every
external call succeeding and `limit = 5`, the run processes exactly the 5
lexicographically first filenames: it writes exactly their 5 output files,
leaves the checkpoint listing exactly those 5 identifiers, and writes the
aggregate file with exactly the run's 5 results.  The written names are
pairwise distinct whenever the files' question numbers are. -/
theorem claim7_limit_five (env : ExamPacks.Env) (fs0 : ExamPacks.FS)
    (h10 : env.files.length = 10)
    (hcp : fs0.cpFile = CpFile.absent)
    (hout : fs0.outputs = [])
    (hagg : fs0.aggFile = none)
    (hl : ∀ f, env.loadOk f = true)
    (hsv : ∀ f, ∃ t, env.svc f 0 = SvcAttempt.resp t)
    (hr : ∀ f, env.saveResultOk f = true)
    (hc : ∀ f, env.saveCpOk f = true)
    (haggOk : env.aggOk = true) :
    ∃ rs : List Json, rs.length = 5 ∧
      ExamPacks.process_all_files env none none (some 5) fs0 =
        .finished rs ((sortStr env.files).take 5)
          { fs0 with
            outputs := List.zipWith
              (fun g r => (ExamPacks.outName (ExamPacks.mkQData env g), r))
              ((sortStr env.files).take 5) rs,
            cpFile := CpFile.good ((sortStr env.files).take 5),
            aggFile := some rs } ∧
      (List.zipWith (fun g r => (ExamPacks.outName (ExamPacks.mkQData env g), r))
          ((sortStr env.files).take 5) rs).map Prod.fst =
        ((sortStr env.files).take 5).map
          (fun g => ExamPacks.outName (ExamPacks.mkQData env g)) ∧
      ((env.files.map ExamPacks.epQnum).Nodup →
        (((sortStr env.files).take 5).map
          (fun g => ExamPacks.outName (ExamPacks.mkQData env g))).Nodup) := by
  have hperm : List.Perm (sortStr env.files) env.files :=
    List.perm_insertionSort StrLeP env.files
  have hsortlen : (sortStr env.files).length = 10 := hperm.length_eq.trans h10
  have hsellen : ((sortStr env.files).take 5).length = 5 := by
    rw [List.length_take, hsortlen]
    exact min_eq_left (by norm_num)
  cases hs : (sortStr env.files).take 5 with
  | nil => rw [hs] at hsellen; simp at hsellen
  | cons a tl =>
      obtain ⟨rs, hlen, hbi⟩ := ep_runBatchItems_allok env hl hsv hr hc (a :: tl) [] fs0
      have hlen5 : rs.length = 5 := by rw [hlen, ← hs, hsellen]
      refine ⟨rs, hlen5, ?_, ?_, ?_⟩
      · simp only [ExamPacks.process_all_files, hcp]
        rw [show cpRead CpFile.absent = [] from rfl]
        rw [(List.filter_eq_self.mpr (fun x _ => rfl) :
          List.filter (fun f => !(List.contains [] f)) env.files = env.files)]
        have hne2 : env.files.isEmpty = false := by
          cases hfe : env.files with
          | nil => rw [hfe] at h10; simp at h10
          | cons x xs => simp
        simp only [hne2, Bool.false_eq_true, if_false, Option.isSome_none,
          Option.isSome_some, Bool.false_or, Bool.or_false, if_true,
          Option.getD_none, pySliceList, List.drop_zero, Nat.sub_zero,
          Nat.zero_add]
        rw [hsortlen]
        rw [(by norm_num : min (5 : Nat) 10 = 5)]
        rw [hs]
        rw [show ExamPacks.BATCH_SIZE = 5 from rfl]
        rw [chunks_of_le 5 a tl (by rw [← hs, hsellen])]
        rw [ExamPacks.runBatches]
        simp only [hbi]
        rw [haggOk]
        simp only [if_true, List.nil_append, hout, hagg, Option.getD_none,
          List.filter_nil, List.append_nil]
        rw [ExamPacks.runBatches]
        simp
      · exact map_fst_zipWith _ (a :: tl) rs hlen
      · intro hn
        rw [← hs]
        have hn2 : ((sortStr env.files).map ExamPacks.epQnum).Nodup :=
          ((hperm.map ExamPacks.epQnum).nodup_iff).mpr hn
        have hn3 : (((sortStr env.files).take 5).map ExamPacks.epQnum).Nodup := by
          rw [List.map_take]
          exact hn2.sublist (List.take_sublist 5 _)
        have hinj : Function.Injective
            (fun q : Str => "processed_".data ++ q ++ ".json".data) := by
          intro x y hxy
          simp only [List.append_assoc] at hxy
          have h1 := List.append_cancel_left hxy
          exact List.append_cancel_right h1
        have hmm : ((sortStr env.files).take 5).map
            (fun g => ExamPacks.outName (ExamPacks.mkQData env g)) =
            (((sortStr env.files).take 5).map ExamPacks.epQnum).map
              (fun q : Str => "processed_".data ++ q ++ ".json".data) := by
          rw [List.map_map]
          rfl
        rw [hmm]
        exact hn3.map hinj

theorem claim7_witness :
    ∃ rs : List Json, rs.length = 5 ∧
      ExamPacks.process_all_files envEPTen none none (some 5) fsEmptyEP =
        .finished rs ((sortStr envEPTen.files).take 5)
          { fsEmptyEP with
            outputs := List.zipWith
              (fun g r => (ExamPacks.outName (ExamPacks.mkQData envEPTen g), r))
              ((sortStr envEPTen.files).take 5) rs,
            cpFile := CpFile.good ((sortStr envEPTen.files).take 5),
            aggFile := some rs } ∧
      (List.zipWith (fun g r => (ExamPacks.outName (ExamPacks.mkQData envEPTen g), r))
          ((sortStr envEPTen.files).take 5) rs).map Prod.fst =
        ((sortStr envEPTen.files).take 5).map
          (fun g => ExamPacks.outName (ExamPacks.mkQData envEPTen g)) ∧
      ((envEPTen.files.map ExamPacks.epQnum).Nodup →
        (((sortStr envEPTen.files).take 5).map
          (fun g => ExamPacks.outName (ExamPacks.mkQData envEPTen g))).Nodup) :=
  claim7_limit_five envEPTen fsEmptyEP rfl rfl rfl rfl (fun _ => rfl)
    (fun _ => ⟨("plain text").data, rfl⟩) (fun _ => rfl) (fun _ => rfl) rfl
